import Mathlib

/-!
# Verification development for `expect.go` (package `assert`)

A shallow embedding of the assertion helper: Go interface values are an
explicit universe `Value` with their runtime types, the test context is an
explicit failure log threaded through every operation, and a Go panic is an
explicit result. Library behaviour the package relies on (`reflect`, `time`,
`fmt`) is embedded next to the function that uses it.
-/

namespace Assert

/-! ## Runtime types and values -/

/-- The kinds of `reflect.Kind`. -/
inductive Kind where
  | Invalid | Bool | Int | Int8 | Int16 | Int32 | Int64
  | Uint | Uint8 | Uint16 | Uint32 | Uint64 | Uintptr
  | Float32 | Float64 | Complex64 | Complex128
  | Array | Chan | Func | Interface | Map | Pointer | Slice | String | Struct
  | UnsafePointer
  deriving DecidableEq, Repr

/-- Runtime types (`reflect.Type`) of the values of the universe. A function
type is identified by its printed signature together with its arity. -/
inductive GoType where
  | bool
  | int
  | int64
  | float64
  | string
  | iface
  | time
  | struct (name : String)
  | func (sig : String) (numIn : Nat) (variadic : Bool) (numOut : Nat)
  | ptr (elem : GoType)
  | slice (elem : GoType)
  | array (len : Nat) (elem : GoType)
  | map (key : GoType) (elem : GoType)
  | chan (elem : GoType)
  deriving DecidableEq, Repr

/-- The method `Type.Kind`. -/
def GoType.kind : GoType → Kind
  | .bool => .Bool
  | .int => .Int
  | .int64 => .Int64
  | .float64 => .Float64
  | .string => .String
  | .iface => .Interface
  | .time => .Struct
  | .struct _ => .Struct
  | .func _ _ _ _ => .Func
  | .ptr _ => .Pointer
  | .slice _ => .Slice
  | .array _ _ => .Array
  | .map _ _ => .Map
  | .chan _ => .Chan

/-- A `time.Time` without monotonic clock reading: seconds since January 1 of
year 1 (an int64), nanoseconds within the second, and its location. The
location is numbered by its content: 0 is the nil pointer, and two pointers
to locations that are deeply equal have the same number, so that the equality
of two times is what `reflect.DeepEqual` finds on the struct, which follows
the pointer. -/
structure Time where
  sec : Int
  nsec : Nat
  loc : Nat
  deriving DecidableEq, Repr

/-- Keys of the maps of the universe: values of the basic comparable types
other than floating point. -/
inductive Key where
  | bool (b : Bool)
  | int (i : Int)
  | int64 (i : Int)
  | string (s : String)
  deriving DecidableEq, Repr

mutual
/-- The values an `interface{}` can hold. `nil` is the absent (untyped nil)
value; `typedNil t` is the nil value of the nilable type `t`; pointers, slices,
maps, channels and functions carry the address that Go compares with `==`; a
channel also carries the number of elements queued in it. -/
inductive Value where
  | nil
  | bool (b : Bool)
  | int (i : Int)
  | int64 (i : Int)
  | float64 (bits : Nat)
  | string (s : String)
  | time (t : Time)
  | func (sig : String) (numIn : Nat) (variadic : Bool) (numOut : Nat) (addr : Nat)
  | typedNil (t : GoType)
  | ptr (addr : Nat) (elem : Value)
  | slice (elemT : GoType) (base : Nat) (elems : Values)
  | array (elemT : GoType) (elems : Values)
  | struct (name : String) (fields : Values)
  | map (keyT : GoType) (elemT : GoType) (id : Nat) (entries : Entries)
  | chan (elemT : GoType) (id : Nat) (queued : Nat)
/-- Sequences of values (slice and array elements, struct fields). -/
inductive Values where
  | nil
  | cons (v : Value) (rest : Values)
/-- The entries of a map value. -/
inductive Entries where
  | nil
  | cons (k : Key) (v : Value) (rest : Entries)
end

/-- Number of values of a sequence. -/
def Values.length : Values → Nat
  | .nil => 0
  | .cons _ rest => rest.length + 1

/-- Number of entries of a map. -/
def Entries.length : Entries → Nat
  | .nil => 0
  | .cons _ _ rest => rest.length + 1

/-- The value stored under a key (`Value.MapIndex`). -/
def Entries.lookup (k : Key) : Entries → Option Value
  | .nil => none
  | .cons k2 v rest => if k2 = k then some v else rest.lookup k

/-- Build a sequence from a list. -/
def Values.ofList : List Value → Values
  | [] => .nil
  | v :: vs => .cons v (Values.ofList vs)

/-- The runtime type of a value (`reflect.TypeOf`); the absent value has none.
A pointer to an interface variable holding nil has type `*interface {}`. -/
def typeOf : Value → Option GoType
  | .nil => none
  | .bool _ => some .bool
  | .int _ => some .int
  | .int64 _ => some .int64
  | .float64 _ => some .float64
  | .string _ => some .string
  | .time _ => some .time
  | .func sig numIn variadic numOut _ => some (.func sig numIn variadic numOut)
  | .typedNil t => some t
  | .ptr _ elem =>
    match typeOf elem with
    | some t => some (.ptr t)
    | none => some (.ptr .iface)
  | .slice elemT _ _ => some (.slice elemT)
  | .array elemT elems => some (.array elems.length elemT)
  | .struct name _ => some (.struct name)
  | .map keyT elemT _ _ => some (.map keyT elemT)
  | .chan elemT _ _ => some (.chan elemT)

/-! ## Floating point equality -/

/-- Whether a float64 bit pattern is a NaN: exponent all ones, mantissa not
zero. -/
def isNaN (bits : Nat) : Bool :=
  (bits / 2 ^ 52) % 2 ^ 11 == 2047 && bits % 2 ^ 52 != 0

/-- Go's `==` on float64, on bit patterns: no NaN is equal to anything, the
two zeros are equal, otherwise the patterns agree. -/
def floatEq (a b : Nat) : Bool :=
  !isNaN a && !isNaN b && (a % 2 ^ 64 == b % 2 ^ 64 || (a % 2 ^ 63 == 0 && b % 2 ^ 63 == 0))

/-! ## `reflect.DeepEqual` -/

mutual
/-- The function `deepValueEqual` of package `reflect`, on values without
cycles (where its visited-set never decides the result). The types are
compared first, then the values by kind. -/
def deepValueEqual : Value → Value → Bool
  | .nil, y =>
    match y with
    | .nil => true
    | _ => false
  | .bool a, y =>
    match y with
    | .bool b => a == b
    | _ => false
  | .int a, y =>
    match y with
    | .int b => a == b
    | _ => false
  | .int64 a, y =>
    match y with
    | .int64 b => a == b
    | _ => false
  | .float64 a, y =>
    match y with
    | .float64 b => floatEq a b
    | _ => false
  | .string a, y =>
    match y with
    | .string b => a == b
    | _ => false
  | .time a, y =>
    match y with
    | .time b => a == b
    | _ => false
  | .func _ _ _ _ _, _ => false
  | .typedNil t, y =>
    match y with
    | .typedNil u => t == u
    | _ => false
  | .ptr addr elem, y =>
    match y with
    | .ptr addr2 elem2 =>
      typeOf (.ptr addr elem) == typeOf (.ptr addr2 elem2) &&
        (addr == addr2 || deepValueEqual elem elem2)
    | _ => false
  | .slice elemT base elems, y =>
    match y with
    | .slice elemT2 base2 elems2 =>
      elemT == elemT2 && elems.length == elems2.length &&
        (base == base2 || deepValuesEqual elems elems2)
    | _ => false
  | .array elemT elems, y =>
    match y with
    | .array elemT2 elems2 =>
      elemT == elemT2 && elems.length == elems2.length && deepValuesEqual elems elems2
    | _ => false
  | .struct name fields, y =>
    match y with
    | .struct name2 fields2 => name == name2 && deepValuesEqual fields fields2
    | _ => false
  | .map keyT elemT id entries, y =>
    match y with
    | .map keyT2 elemT2 id2 entries2 =>
      keyT == keyT2 && elemT == elemT2 && entries.length == entries2.length &&
        (id == id2 || deepEntriesEqual entries entries2)
    | _ => false
  | .chan elemT id _, y =>
    match y with
    | .chan elemT2 id2 _ => elemT == elemT2 && id == id2
    | _ => false
/-- Element-wise comparison of two sequences. -/
def deepValuesEqual : Values → Values → Bool
  | .nil, ys =>
    match ys with
    | .nil => true
    | _ => false
  | .cons x xs, ys =>
    match ys with
    | .cons y ys2 => deepValueEqual x y && deepValuesEqual xs ys2
    | _ => false
/-- The map loop of `deepValueEqual`: every entry of the first map is looked
up in the second and the two values compared. -/
def deepEntriesEqual : Entries → Entries → Bool
  | .nil, _ => true
  | .cons k v rest, m2 =>
    (match m2.lookup k with
      | some v2 => deepValueEqual v v2
      | none => false) && deepEntriesEqual rest m2
end

/-- The function `reflect.DeepEqual`. -/
def DeepEqual (x y : Value) : Bool :=
  match x, y with
  | .nil, .nil => true
  | .nil, _ => false
  | _, .nil => false
  | _, _ => typeOf x == typeOf y && deepValueEqual x y

/-! ## Test context, panics and results -/

/-- What the package takes from the runtime and from package `fmt`: the
rendering of a value by the verb `%v`, the method `Time.String`, and the
GODEBUG setting `panicnil` (when set, as for every module that declares a Go
version before 1.21, `recover` returns nil after `panic(nil)`). -/
structure Runtime where
  fmtV : Value → String
  timeString : Time → String
  panicnil : Bool

/-- The part of a `*testing.T` the package uses: the failures reported through
`Error` and `Errorf`, oldest first. -/
structure TestT where
  failures : List String
  deriving DecidableEq, Repr

/-- The package state: the registered test context, and a counter of the
invocations of callables made so far (an observation, no Go variable). -/
structure World where
  currentT : Option TestT
  invoked : Nat
  deriving DecidableEq, Repr

/-- The value a Go panic carries. -/
inductive Panic where
  | msg (s : String)
  | runtime (s : String)
  | user (v : Value)

/-- The outcome of an operation: it returns, or it panics and the panic
propagates to the caller. -/
inductive Res (α : Type) where
  | ret (a : α) (w : World)
  | panic (p : Panic) (w : World)

/-- The world an outcome leaves. -/
def Res.world {α : Type} : Res α → World
  | .ret _ w => w
  | .panic _ w => w

/-- The value an outcome returns, if it returns. -/
def Res.value {α : Type} : Res α → Option α
  | .ret a _ => some a
  | .panic _ _ => none

/-- The failures recorded on the registered context (none without context). -/
def World.failures (w : World) : List String :=
  match w.currentT with
  | some t => t.failures
  | none => []

/-- The call `currentT.Error(err)`: the message is appended to the failures of
the registered context; on a nil context the method dereferences nil. -/
def tError (msg : String) (w : World) : Res Unit :=
  match w.currentT with
  | none => .panic (.runtime "invalid memory address or nil pointer dereference") w
  | some t => .ret () { w with currentT := some { failures := t.failures ++ [msg] } }

/-- The tail shared by the assertions: report the error, return false. -/
def failWith (msg : String) (w : World) : Res Bool :=
  match tError msg w with
  | .ret _ w2 => .ret false w2
  | .panic p w2 => .panic p w2

/-! ## `describe` and `mustBeFunction` -/

/-- The method `Type.String`. -/
def typeString : GoType → String
  | .bool => "bool"
  | .int => "int"
  | .int64 => "int64"
  | .float64 => "float64"
  | .string => "string"
  | .iface => "interface {}"
  | .time => "time.Time"
  | .struct name => name
  | .func sig _ _ _ => sig
  | .ptr elem => "*" ++ typeString elem
  | .slice elem => "[]" ++ typeString elem
  | .array len elem => "[" ++ toString len ++ "]" ++ typeString elem
  | .map key elem => "map[" ++ typeString key ++ "]" ++ typeString elem
  | .chan elem => "chan " ++ typeString elem

/-- The function `describe`. -/
def describe (R : Runtime) (v : Value) : String :=
  match typeOf v with
  | none => "[nil] nil"
  | some t => "[" ++ typeString t ++ "] " ++ R.fmtV v

/-- The function `mustBeFunction`: the panic it raises, if any. On the absent
value `reflect.TypeOf` is nil and the call of `Kind` dereferences nil. -/
def mustBeFunction (v : Value) : Option Panic :=
  match typeOf v with
  | none => some (.runtime "invalid memory address or nil pointer dereference")
  | some t => if t.kind ≠ .Func then some (.msg "Value is not a function") else none

/-! ## The chain -/

/-- The struct `AnyAssertions`. -/
structure AnyAssertions where
  actual : Value

/-- The function `Expect`. -/
def Expect (actual : Value) (w : World) : Res AnyAssertions :=
  match w.currentT with
  | none => .panic (.msg "Did you forget to call RegisterT(t)?") w
  | some _ => .ret { actual := actual } w

/-- The method `Equals`. -/
def Equals (R : Runtime) (a : AnyAssertions) (expected : Value) (w : World) : Res Bool :=
  if DeepEqual expected a.actual then .ret true w
  else failWith ("Equals assertion failed. \n Expected: \n\t\t " ++ describe R expected ++
    "\n Actual: \n\t\t " ++ describe R a.actual) w

/-- The function `strings.Contains` on the characters of two strings. -/
def containsChars (sub : List Char) : List Char → Bool
  | [] => sub.isEmpty
  | c :: cs => sub.isPrefixOf (c :: cs) || containsChars sub cs

/-- The method `ContainsString`; the type assertion `a.actual.(string)` panics
on every value whose type is not `string`. -/
def ContainsString (R : Runtime) (a : AnyAssertions) (substr : String) (w : World) : Res Bool :=
  match a.actual with
  | .string s =>
    if containsChars substr.data s.data then .ret true w
    else failWith ("ContainsString assertion failed. \n String: \n\t\t " ++ substr ++
      "\n Actual: \n\t\t " ++ describe R a.actual) w
  | _ => .panic (.runtime "interface conversion: interface {} is not string") w

/-- The method `NotEquals`. -/
def NotEquals (R : Runtime) (a : AnyAssertions) (other : Value) (w : World) : Res Bool :=
  if !DeepEqual other a.actual then .ret true w
  else failWith ("NotEquals assertion failed. \n Other: \n\t\t " ++ describe R other ++
    "\n Actual: \n\t\t " ++ describe R a.actual) w

/-- The method `IsTrue`. -/
def IsTrue (R : Runtime) (a : AnyAssertions) (w : World) : Res Bool :=
  Equals R a (.bool true) w

/-- The method `IsFalse`. -/
def IsFalse (R : Runtime) (a : AnyAssertions) (w : World) : Res Bool :=
  Equals R a (.bool false) w

/-- The method `IsEmpty`. -/
def IsEmpty (R : Runtime) (a : AnyAssertions) (w : World) : Res Bool :=
  Equals R a (.string "") w

/-- The method `IsNotEmpty`. -/
def IsNotEmpty (R : Runtime) (a : AnyAssertions) (w : World) : Res Bool :=
  NotEquals R a (.string "") w

/-! ## Nil checks and length -/

/-- The method `Value.IsNil` of package `reflect`: defined on the kinds that
have a nil value, a panic on every other kind (the zero `Value` of the absent
value included). -/
def reflectIsNil (v : Value) : Except Panic Bool :=
  match typeOf v with
  | none => .error (.runtime "reflect: call of reflect.Value.IsNil on zero Value")
  | some t =>
    match t.kind with
    | .Chan | .Func | .Interface | .Map | .Pointer | .Slice | .UnsafePointer =>
      match v with
      | .typedNil _ => .ok true
      | _ => .ok false
    | _ => .error (.runtime ("reflect: call of reflect.Value.IsNil on " ++ typeString t ++ " Value"))

/-- The method `IsNotNil`. The condition `a.actual != nil && !IsNil()` stops at
its first operand on the absent value. -/
def IsNotNil (R : Runtime) (a : AnyAssertions) (w : World) : Res Bool :=
  let report := failWith ("IsNotNil assertion failed. \n Actual: \n\t\t " ++ R.fmtV a.actual) w
  match a.actual with
  | .nil => report
  | v =>
    match reflectIsNil v with
    | .error p => .panic p w
    | .ok isNil => if !isNil then .ret true w else report

/-- The method `IsNil`. The condition `a.actual == nil || IsNil()` stops at its
first operand on the absent value. -/
def IsNil (R : Runtime) (a : AnyAssertions) (w : World) : Res Bool :=
  let report := failWith ("IsNil assertion failed. \n Actual: \n\t\t " ++ R.fmtV a.actual) w
  match a.actual with
  | .nil => .ret true w
  | v =>
    match reflectIsNil v with
    | .error p => .panic p w
    | .ok isNil => if isNil then .ret true w else report

/-- The method `Value.Len` of package `reflect`: arrays, channels, maps, slices,
strings (their byte length) and pointers to arrays have a length; every other
kind panics. -/
def reflectLen (v : Value) : Except Panic Nat :=
  match v with
  | .array _ elems => .ok elems.length
  | .chan _ _ queued => .ok queued
  | .map _ _ _ entries => .ok entries.length
  | .slice _ _ elems => .ok elems.length
  | .string s => .ok s.utf8ByteSize
  | .ptr _ (.array _ elems) => .ok elems.length
  | .typedNil (.chan _) => .ok 0
  | .typedNil (.map _ _) => .ok 0
  | .typedNil (.slice _) => .ok 0
  | .typedNil (.ptr (.array len _)) => .ok len
  | _ => .error (.runtime "reflect: call of reflect.Value.Len on a Value without length")

/-- The method `HasLen`. -/
def HasLen (a : AnyAssertions) (expected : Int) (w : World) : Res Bool :=
  match reflectLen a.actual with
  | .error p => .panic p w
  | .ok length =>
    if expected = (length : Int) then .ret true w
    else failWith ("HasLen assertion failed. \n Expected: \n\t\t " ++ toString expected ++
      " \n Actual: \n\t\t " ++ toString length) w

/-! ## Callables -/

/-- What one invocation of a callable does: it returns its results, or it
panics. What the body of the callable does to the package state is outside
the model. -/
inductive CallOutcome where
  | returns (vals : List Value)
  | panics (p : Panic)

/-- The call `reflect.ValueOf(f).Call([]reflect.Value{})`: a value that is no
function, a nil function and a function that needs arguments make `Call` panic
before anything is invoked; otherwise the function runs once, with the outcome
`body`. -/
def reflectCall (f : Value) (body : CallOutcome) (w : World) : CallOutcome × World :=
  match f with
  | .func _ numIn variadic _ _ =>
    if 0 < (if variadic then numIn - 1 else numIn) then
      (.panics (.runtime "reflect: Call with too few input arguments"), w)
    else (body, { w with invoked := w.invoked + 1 })
  | .typedNil (.func _ _ _ _) =>
    (.panics (.runtime "reflect.Value.Call: call of nil function"), w)
  | _ => (.panics (.runtime "reflect: call of reflect.Value.Call on a Value that is no func"), w)

/-- Whether `recover()` returns a non-nil value for a panic. Only `panic(nil)`
can be recovered as nil, and only under the setting `panicnil`. -/
def recoveredNonNil (panicnil : Bool) : Panic → Bool
  | .user .nil => !panicnil
  | _ => true

/-- The method `Panics`. `mustBeFunction` runs before the deferred function is
installed; every later panic, of `Call` or of `currentT.Error`, is recovered,
and the named result is set when the recovered value is not nil. -/
def Panics (R : Runtime) (a : AnyAssertions) (body : CallOutcome) (w : World) : Res Bool :=
  match mustBeFunction a.actual with
  | some p => .panic p w
  | none =>
    match reflectCall a.actual body w with
    | (.panics p, w1) => .ret (recoveredNonNil R.panicnil p) w1
    | (.returns _, w1) =>
      match tError "Panics assertion failed. \n Given function didn't panic" w1 with
      | .ret _ w2 => .ret false w2
      | .panic p w2 => .ret (recoveredNonNil R.panicnil p) w2

/-- The case a `select` of the polling loop takes: the deadline of the context
or a tick of the ticker. -/
inductive SelectEvent where
  | done
  | tick
  deriving DecidableEq, Repr

/-- The loop of `EventuallyEquals`, entered for the poll number `i` (the polls
before it were each followed by a tick). `calls i` is the outcome of the poll
number `i`, `sel i` the case the select after it takes. Without fuel left the
loop is still polling. -/
def EventuallyEquals.loop (R : Runtime) (a : AnyAssertions) (expected : Value)
    (calls : Nat → CallOutcome) (sel : Nat → SelectEvent) : Nat → Nat → World → Option (Res Bool)
  | 0, _, _ => none
  | fuel + 1, i, w =>
    match reflectCall a.actual (calls i) w with
    | (.panics p, w1) => some (.panic p w1)
    | (.returns [], w1) => some (.panic (.runtime "index out of range [0] with length 0") w1)
    | (.returns (v :: _), w1) =>
      if DeepEqual expected v then some (.ret true w1)
      else
        match sel i with
        | .done =>
          some (failWith ("EventuallyEquals assertion failed. \n Expected: \n\t\t " ++
            describe R expected ++ " \n Actual: \n\t\t " ++ describe R a.actual) w1)
        | .tick => EventuallyEquals.loop R a expected calls sel fuel (i + 1) w1

/-- The method `EventuallyEquals`. -/
def EventuallyEquals (R : Runtime) (a : AnyAssertions) (expected : Value)
    (calls : Nat → CallOutcome) (sel : Nat → SelectEvent) (fuel : Nat) (w : World) :
    Option (Res Bool) :=
  match mustBeFunction a.actual with
  | some p => some (.panic p w)
  | none => EventuallyEquals.loop R a expected calls sel fuel 0 w

/-! ## Package `time` -/

/-- An integer reduced to the range of int64 (two's complement). -/
def wrap64 (x : Int) : Int :=
  (x + 2 ^ 63) % 2 ^ 64 - 2 ^ 63

/-- The method `addSec` of `time.Time` for a time without monotonic reading:
the sum of the seconds, kept at the end of the int64 range when it overflows. -/
def addSec (ext d : Int) : Int :=
  let sum := wrap64 (ext + d)
  if decide (sum > ext) = decide (d > 0) then sum
  else if d > 0 then 2 ^ 63 - 1
  else -(2 ^ 63 - 1)

/-- The method `Time.Add`, the duration in nanoseconds (an int64); `/` and `%`
of Go truncate towards zero. -/
def Time.Add (t : Time) (d : Int) : Time :=
  let dsec := Int.tdiv d 1000000000
  let nsec := (t.nsec : Int) + Int.tmod d 1000000000
  if nsec ≥ 1000000000 then
    { t with nsec := (nsec - 1000000000).toNat, sec := addSec t.sec (dsec + 1) }
  else if nsec < 0 then
    { t with nsec := (nsec + 1000000000).toNat, sec := addSec t.sec (dsec - 1) }
  else
    { t with nsec := nsec.toNat, sec := addSec t.sec dsec }

/-- The method `Time.After`. -/
def Time.After (t u : Time) : Bool :=
  decide (t.sec > u.sec) || (decide (t.sec = u.sec) && decide (t.nsec > u.nsec))

/-- The method `Time.Before`. -/
def Time.Before (t u : Time) : Bool :=
  decide (t.sec < u.sec) || (decide (t.sec = u.sec) && decide (t.nsec < u.nsec))

/-- The method `WithinTime`. A nil `*time.Time` panics, a non-nil one is
dereferenced, a `time.Time` is taken as it is, every other value panics. -/
def WithinTime (R : Runtime) (a : AnyAssertions) (other : Time) (diff : Int) (w : World) :
    Res Bool :=
  let check (t : Time) : Res Bool :=
    let upperBound := other.Add diff
    let lowerBound := other.Add (wrap64 (diff * -1))
    if t.After lowerBound && t.Before upperBound then .ret true w
    else failWith ("WithinTime assertion failed. \n Range: \n\t\t " ++ R.timeString lowerBound ++
      " ~ " ++ R.timeString upperBound ++ " \n Actual: \n\t\t " ++ R.timeString t) w
  match a.actual with
  | .typedNil (.ptr .time) => .panic (.msg "Value is nil") w
  | .ptr _ (.time t) => check t
  | .time t => check t
  | _ => .panic (.msg "Value is not a time") w

/-! ## Specification-side notions -/

mutual
/-- Values that `reflect.DeepEqual` finds equal to themselves: no NaN and no
non-nil function is reached through array elements and struct fields.
Pointers, slices, maps and channels are compared by address first, so what
they hold does not matter. -/
def selfEqual : Value → Bool
  | .float64 bits => !isNaN bits
  | .func _ _ _ _ _ => false
  | .array _ elems => selfEqualAll elems
  | .struct _ fields => selfEqualAll fields
  | _ => true
/-- Every value of the sequence is equal to itself. -/
def selfEqualAll : Values → Bool
  | .nil => true
  | .cons v rest => selfEqual v && selfEqualAll rest
end

/-- A function value that `Call` can invoke without arguments. -/
def zeroArgCallable : Value → Bool
  | .func _ numIn variadic _ _ => (if variadic then numIn - 1 else numIn) == 0
  | _ => false

/-- A value of a type that has a nil value is currently nil. -/
def isNilValue : Value → Bool
  | .typedNil _ => true
  | _ => false

/-- The kinds named nilable: pointer, map, slice, channel, function,
interface. -/
def nilableKind : Kind → Bool
  | .Pointer | .Map | .Slice | .Chan | .Func | .Interface => true
  | _ => false

/-- The instant of a time, in nanoseconds since January 1 of year 1. -/
def Time.nanos (t : Time) : Int :=
  t.sec * 1000000000 + t.nsec

/-- A well-formed time: the seconds fit an int64 and the nanoseconds are
below one second. -/
def Time.valid (t : Time) : Prop :=
  -(2 ^ 63) ≤ t.sec ∧ t.sec < 2 ^ 63 ∧ t.nsec < 1000000000

/-- An instant whose seconds fit an int64. -/
def instantInRange (n : Int) : Prop :=
  -(2 ^ 63) * 1000000000 ≤ n ∧ n < 2 ^ 63 * 1000000000

/-- A duration is an int64. -/
def durationInRange (d : Int) : Prop :=
  -(2 ^ 63) ≤ d ∧ d < 2 ^ 63

/-- A runtime used to evaluate the operations on concrete inputs. -/
def sampleRuntime (panicnil : Bool) : Runtime :=
  { fmtV := fun _ => "<value>", timeString := fun _ => "<time>", panicnil := panicnil }

/-- A world with a registered context that has recorded nothing. -/
def sampleWorld : World :=
  { currentT := some { failures := [] }, invoked := 0 }

/-- The bit pattern of a quiet NaN. -/
def nanBits : Nat := 0x7FF8000000000001

/-- A call of one of the thirteen chain operations, with its arguments and,
for the two operations that invoke the actual value, what the invocations do
and which way the selects go. -/
inductive Op where
  | equals (expected : Value)
  | notEquals (other : Value)
  | containsString (substr : String)
  | isTrue
  | isFalse
  | isEmpty
  | isNotEmpty
  | isNotNil
  | isNil
  | hasLen (expected : Int)
  | panics (body : CallOutcome)
  | eventuallyEquals (expected : Value) (calls : Nat → CallOutcome) (sel : Nat → SelectEvent)
      (fuel : Nat)
  | withinTime (other : Time) (diff : Int)

/-- Run a chain operation; `none` when the polling loop is out of fuel. -/
def Op.run (R : Runtime) (a : AnyAssertions) (w : World) : Op → Option (Res Bool)
  | .equals expected => some (Equals R a expected w)
  | .notEquals other => some (NotEquals R a other w)
  | .containsString substr => some (ContainsString R a substr w)
  | .isTrue => some (IsTrue R a w)
  | .isFalse => some (IsFalse R a w)
  | .isEmpty => some (IsEmpty R a w)
  | .isNotEmpty => some (IsNotEmpty R a w)
  | .isNotNil => some (IsNotNil R a w)
  | .isNil => some (IsNil R a w)
  | .hasLen expected => some (HasLen a expected w)
  | .panics body => some (Panics R a body w)
  | .eventuallyEquals expected calls sel fuel => EventuallyEquals R a expected calls sel fuel w
  | .withinTime other diff => some (WithinTime R a other diff w)

/-- The outcome `r` of an operation started in world `w` reports correctly: a
returned false comes with exactly one more recorded failure, a returned true
with the recorded failures unchanged. -/
def Reports (w : World) (r : Res Bool) : Prop :=
  ∀ b w2, r = .ret b w2 →
    (b = false → ∃ msg, w2.failures = w.failures ++ [msg]) ∧
    (b = true → w2.failures = w.failures)

/-- The open interval of the specification: the instant of `t` lies strictly
between the instant of `other` minus `diff` and plus `diff`. -/
def withinOpenInterval (t other : Time) (diff : Int) : Prop :=
  other.nanos - diff < t.nanos ∧ t.nanos < other.nanos + diff

instance (t other : Time) (diff : Int) : Decidable (withinOpenInterval t other diff) := by
  unfold withinOpenInterval
  infer_instance

/-- The chain wraps the time `t`, as a value or behind a non-nil pointer. -/
def wrapsTime (v : Value) (t : Time) : Prop :=
  v = .time t ∨ ∃ addr, v = .ptr addr (.time t)

instance (t : Time) : Decidable t.valid := by
  unfold Time.valid
  infer_instance

instance (n : Int) : Decidable (instantInRange n) := by
  unfold instantInRange
  infer_instance

instance (d : Int) : Decidable (durationInRange d) := by
  unfold durationInRange
  infer_instance

/-- The last second an int64 can count. -/
def maxTime : Time := { sec := 2 ^ 63 - 1, nsec := 0, loc := 0 }

/-- Second 100 of year 1, in UTC. -/
def sampleTime : Time := { sec := 100, nsec := 0, loc := 0 }

/-- What a poll contributes to the loop of `EventuallyEquals`: the comparison
of expected with the first result, when the invocation returns one. -/
def pollResult (expected : Value) : CallOutcome → Option Bool
  | .returns (v :: _) => some (DeepEqual expected v)
  | _ => none

/-- A function of type `func()` used to evaluate the operations. -/
def sampleFunc : Value := .func "func()" 0 false 0 4096

/-- A callable whose results are 0 on the first two polls and 1 afterwards. -/
def sampleCalls : Nat → CallOutcome :=
  fun i => if i < 2 then .returns [.int 0] else .returns [.int 1]

/-- Whether a key occurs among the entries of a map. -/
def Entries.hasKey (k : Key) : Entries → Bool
  | .nil => false
  | .cons k2 _ rest => k2 == k || rest.hasKey k

/-- The keys of a map are distinct. -/
def Entries.distinctKeys : Entries → Bool
  | .nil => true
  | .cons k _ rest => !rest.hasKey k && rest.distinctKeys

mutual
/-- The terms of the universe that denote Go values: a typed nil has a type
with a nil value, and the keys of every map are distinct. -/
def wellFormed : Value → Bool
  | .typedNil t =>
    match t with
    | .ptr _ | .slice _ | .map _ _ | .chan _ | .func _ _ _ _ => true
    | _ => false
  | .ptr _ elem => wellFormed elem
  | .slice _ _ elems => wellFormedAll elems
  | .array _ elems => wellFormedAll elems
  | .struct _ fields => wellFormedAll fields
  | .map _ _ _ entries => entries.distinctKeys && wellFormedEntries entries
  | _ => true
/-- Every value of the sequence is well formed. -/
def wellFormedAll : Values → Bool
  | .nil => true
  | .cons v rest => wellFormed v && wellFormedAll rest
/-- Every value stored in the map is well formed. -/
def wellFormedEntries : Entries → Bool
  | .nil => true
  | .cons _ v rest => wellFormed v && wellFormedEntries rest
end

/-- The kinds named as having a length: array, slice, map, string, channel. -/
def lengthKind : Kind → Bool
  | .Array | .Slice | .Map | .String | .Chan => true
  | _ => false

/-- The length of a value of one of these kinds: the number of elements, of
entries, of bytes, of queued elements; a nil slice, map or channel has none. -/
def valueLength : Value → Nat
  | .array _ elems => elems.length
  | .slice _ _ elems => elems.length
  | .map _ _ _ entries => entries.length
  | .string s => s.utf8ByteSize
  | .chan _ _ queued => queued
  | _ => 0

/-- A pointer to an array of three ints. -/
def sampleArrayPtr : Value :=
  .ptr 64 (.array .int (.cons (.int 1) (.cons (.int 2) (.cons (.int 3) .nil))))

/-- The function `Fail`. `sprintf` stands for `fmt.Sprintf`, which `Errorf`
applies to the message and its arguments. -/
def Fail (sprintf : String → List Value → String) (msg : String) (args : List Value)
    (w : World) : Res Unit :=
  match w.currentT with
  | none => .panic (.msg "Did you forget to call RegisterT(t)?") w
  | some _ => tError (sprintf msg args) w

/-- A formatter used to evaluate `Fail` on concrete inputs. -/
def sampleSprintf : String → List Value → String :=
  fun msg _ => msg

/-- A world in which no context is registered. -/
def unregisteredWorld : World :=
  { currentT := none, invoked := 0 }

/-- The diagnostic of `WithinTime` for the time `t`. -/
def withinTimeMessage (R : Runtime) (t other : Time) (diff : Int) : String :=
  "WithinTime assertion failed. \n Range: \n\t\t " ++
    R.timeString (other.Add (wrap64 (diff * -1))) ++ " ~ " ++ R.timeString (other.Add diff) ++
    " \n Actual: \n\t\t " ++ R.timeString t

/-- The entries of a map as a list of pairs. -/
def Entries.toList : Entries → List (Key × Value)
  | .nil => []
  | .cons k v rest => (k, v) :: rest.toList

/-- A map from strings to ints with two entries. -/
def sampleMap : Value :=
  .map .string .int 1 (.cons (.string "a") (.int 1) (.cons (.string "b") (.int 2) .nil))

/-- Another map object with the same entries, stored in the other order. -/
def sampleMapSwapped : Value :=
  .map .string .int 2 (.cons (.string "b") (.int 2) (.cons (.string "a") (.int 1) .nil))

/-! ## The environment and `RegisterT` -/

/-- The process environment as pairs of a name and its value; the first pair
of a name is the one in force. Names are not empty and hold no `=`, so the
text before the first `=` of an entry of `os.Environ` is its name. -/
abbrev Env := List (String × String)

/-- The function `os.LookupEnv`. -/
def lookupEnv (env : Env) (k : String) : Option String :=
  List.lookup k env

/-- The function `os.Getenv`: the empty string for a name that is not set. -/
def getenv (env : Env) (k : String) : String :=
  (lookupEnv env k).getD ""

/-- The function `os.Setenv`; also the assignment `m[k] = v` on a Go map. -/
def setenv (env : Env) (k v : String) : Env :=
  (k, v) :: env.filter (fun p => p.1 != k)

/-- The function `os.Unsetenv`. -/
def unsetenv (env : Env) (k : String) : Env :=
  env.filter (fun p => p.1 != k)

/-- The state `RegisterT` works on: the package state, the package variable
`envVariables` (nil until the first copy) and the environment of the process. -/
structure Process where
  world : World
  envVariables : Option Env
  environ : Env

/-- The function `copyEnv`. -/
def copyEnv (p : Process) : Process :=
  let copied := p.environ.foldl (fun m e => setenv m e.1 (getenv p.environ e.1)) []
  { p with envVariables := some copied }

/-- The function `restartEnv`; ranging over a nil map does nothing. -/
def restartEnv (p : Process) : Process :=
  match p.envVariables with
  | none => p
  | some m => { p with environ := m.foldl (fun env e => setenv env e.1 e.2) p.environ }

/-- The function `RegisterT`; the context may be a nil pointer. -/
def RegisterT (t : Option TestT) (p : Process) : Process :=
  let p1 := if p.world.currentT.isNone then copyEnv p else p
  restartEnv { p1 with world := { p1.world with currentT := t } }

/-- What a test process does between and around registrations. -/
inductive EnvAction where
  | register (t : Option TestT)
  | setenv (k v : String)
  | unsetenv (k : String)

/-- One action on the process. -/
def Process.step (p : Process) : EnvAction → Process
  | .register t => RegisterT t p
  | .setenv k v => { p with environ := setenv p.environ k v }
  | .unsetenv k => { p with environ := unsetenv p.environ k }

/-- A sequence of actions on the process. -/
def Process.run (p : Process) (acts : List EnvAction) : Process :=
  acts.foldl Process.step p

/-- The action is no registration of a nil context. -/
def EnvAction.keepsContext : EnvAction → Bool
  | .register none => false
  | _ => true

/-- A process that has not registered anything yet. -/
def freshProcess (env : Env) : Process :=
  { world := { currentT := none, invoked := 0 }, envVariables := none, environ := env }

/-- An environment with one variable. -/
def sampleEnv : Env := [("HOME", "/root")]

/-! ## The constants of the polling loop -/

/-- The constant `time.Second`, in nanoseconds. -/
def second : Nat := 1000000000

/-- The constant `time.Millisecond`, in nanoseconds. -/
def millisecond : Nat := 1000000

/-- The timeout of `EventuallyEquals`: `30*time.Second`. -/
def pollTimeout : Nat := 30 * second

/-- The interval of the ticker of `EventuallyEquals`: `100*time.Millisecond`. -/
def pollInterval : Nat := 100 * millisecond

/-- The selects of a run whose callable returns at once. The ticker is made
`start` nanoseconds after the context, so tick number `i + 1` is due
`start + (i + 1) * pollInterval` after the context was made and the deadline
`pollTimeout` after it. The select after poll `i` takes the case that is due
first; when both are due at the same instant `tie i` is taken. -/
def instantSelect (start : Nat) (tie : Nat → SelectEvent) (i : Nat) : SelectEvent :=
  if start + (i + 1) * pollInterval < pollTimeout then .tick
  else if pollTimeout < start + (i + 1) * pollInterval then .done
  else tie i

/-- A callable that always returns 0. -/
def constantCalls : Nat → CallOutcome :=
  fun _ => .returns [.int 0]

/-! ## The chain operations as methods on their receiver -/

/-- The memory a method of the chain works on: the package state and the
struct its receiver `a` points to. -/
structure Frame where
  world : World
  self : AnyAssertions

/-- How a method is left, by a return or by a panic, and the memory it
leaves. -/
inductive Exit (α : Type) where
  | ret (a : α) (f : Frame)
  | panic (p : Panic) (f : Frame)

/-- The memory a method leaves. -/
def Exit.frame {α : Type} : Exit α → Frame
  | .ret _ f => f
  | .panic _ f => f

/-- The outcome of a method without the struct of the receiver. -/
def Exit.res {α : Type} : Exit α → Res α
  | .ret a f => .ret a f.world
  | .panic p f => .panic p f.world

/-- The statements `currentT.Error(err)` and `return false`. -/
def Frame.fail (msg : String) (f : Frame) : Exit Bool :=
  match tError msg f.world with
  | .ret _ w2 => .ret false { world := w2, self := f.self }
  | .panic p w2 => .panic p { world := w2, self := f.self }

/-- The method `Equals`: the field `a.actual` is read, no field is written. -/
def Method.Equals (R : Runtime) (expected : Value) (f : Frame) : Exit Bool :=
  if DeepEqual expected f.self.actual then .ret true f
  else Frame.fail ("Equals assertion failed. \n Expected: \n\t\t " ++ describe R expected ++
    "\n Actual: \n\t\t " ++ describe R f.self.actual) f

/-- The method `ContainsString`. -/
def Method.ContainsString (R : Runtime) (substr : String) (f : Frame) : Exit Bool :=
  match f.self.actual with
  | .string s =>
    if containsChars substr.data s.data then .ret true f
    else Frame.fail ("ContainsString assertion failed. \n String: \n\t\t " ++ substr ++
      "\n Actual: \n\t\t " ++ describe R f.self.actual) f
  | _ => .panic (.runtime "interface conversion: interface {} is not string") f

/-- The method `NotEquals`. -/
def Method.NotEquals (R : Runtime) (other : Value) (f : Frame) : Exit Bool :=
  if !DeepEqual other f.self.actual then .ret true f
  else Frame.fail ("NotEquals assertion failed. \n Other: \n\t\t " ++ describe R other ++
    "\n Actual: \n\t\t " ++ describe R f.self.actual) f

/-- The method `IsTrue`: a call of `Equals` on the same receiver. -/
def Method.IsTrue (R : Runtime) (f : Frame) : Exit Bool :=
  Method.Equals R (.bool true) f

/-- The method `IsFalse`. -/
def Method.IsFalse (R : Runtime) (f : Frame) : Exit Bool :=
  Method.Equals R (.bool false) f

/-- The method `IsEmpty`. -/
def Method.IsEmpty (R : Runtime) (f : Frame) : Exit Bool :=
  Method.Equals R (.string "") f

/-- The method `IsNotEmpty`. -/
def Method.IsNotEmpty (R : Runtime) (f : Frame) : Exit Bool :=
  Method.NotEquals R (.string "") f

/-- The method `IsNotNil`. -/
def Method.IsNotNil (R : Runtime) (f : Frame) : Exit Bool :=
  let report :=
    Frame.fail ("IsNotNil assertion failed. \n Actual: \n\t\t " ++ R.fmtV f.self.actual) f
  match f.self.actual with
  | .nil => report
  | v =>
    match reflectIsNil v with
    | .error p => .panic p f
    | .ok isNil => if !isNil then .ret true f else report

/-- The method `IsNil`. -/
def Method.IsNil (R : Runtime) (f : Frame) : Exit Bool :=
  let report :=
    Frame.fail ("IsNil assertion failed. \n Actual: \n\t\t " ++ R.fmtV f.self.actual) f
  match f.self.actual with
  | .nil => .ret true f
  | v =>
    match reflectIsNil v with
    | .error p => .panic p f
    | .ok isNil => if isNil then .ret true f else report

/-- The method `HasLen`. -/
def Method.HasLen (expected : Int) (f : Frame) : Exit Bool :=
  match reflectLen f.self.actual with
  | .error p => .panic p f
  | .ok length =>
    if expected = (length : Int) then .ret true f
    else Frame.fail ("HasLen assertion failed. \n Expected: \n\t\t " ++ toString expected ++
      " \n Actual: \n\t\t " ++ toString length) f

/-- The method `Panics`; the deferred function assigns the named result only. -/
def Method.Panics (R : Runtime) (body : CallOutcome) (f : Frame) : Exit Bool :=
  match mustBeFunction f.self.actual with
  | some p => .panic p f
  | none =>
    match reflectCall f.self.actual body f.world with
    | (.panics p, w1) => .ret (recoveredNonNil R.panicnil p) { world := w1, self := f.self }
    | (.returns _, w1) =>
      match tError "Panics assertion failed. \n Given function didn't panic" w1 with
      | .ret _ w2 => .ret false { world := w2, self := f.self }
      | .panic p w2 => .ret (recoveredNonNil R.panicnil p) { world := w2, self := f.self }

/-- The loop of the method `EventuallyEquals`; `a.actual` is read on every
poll. -/
def Method.EventuallyEquals.loop (R : Runtime) (expected : Value)
    (calls : Nat → CallOutcome) (sel : Nat → SelectEvent) : Nat → Nat → Frame → Option (Exit Bool)
  | 0, _, _ => none
  | fuel + 1, i, f =>
    match reflectCall f.self.actual (calls i) f.world with
    | (.panics p, w1) => some (.panic p { world := w1, self := f.self })
    | (.returns [], w1) =>
      some (.panic (.runtime "index out of range [0] with length 0")
        { world := w1, self := f.self })
    | (.returns (v :: _), w1) =>
      if DeepEqual expected v then some (.ret true { world := w1, self := f.self })
      else
        match sel i with
        | .done =>
          some (Frame.fail ("EventuallyEquals assertion failed. \n Expected: \n\t\t " ++
            describe R expected ++ " \n Actual: \n\t\t " ++ describe R f.self.actual)
            { world := w1, self := f.self })
        | .tick =>
          Method.EventuallyEquals.loop R expected calls sel fuel (i + 1)
            { world := w1, self := f.self }

/-- The method `EventuallyEquals`. -/
def Method.EventuallyEquals (R : Runtime) (expected : Value) (calls : Nat → CallOutcome)
    (sel : Nat → SelectEvent) (fuel : Nat) (f : Frame) : Option (Exit Bool) :=
  match mustBeFunction f.self.actual with
  | some p => some (.panic p f)
  | none => Method.EventuallyEquals.loop R expected calls sel fuel 0 f

/-- The method `WithinTime`; `t` is a local copy of the time. -/
def Method.WithinTime (R : Runtime) (other : Time) (diff : Int) (f : Frame) : Exit Bool :=
  let check (t : Time) : Exit Bool :=
    let upperBound := other.Add diff
    let lowerBound := other.Add (wrap64 (diff * -1))
    if t.After lowerBound && t.Before upperBound then .ret true f
    else Frame.fail ("WithinTime assertion failed. \n Range: \n\t\t " ++
      R.timeString lowerBound ++ " ~ " ++ R.timeString upperBound ++
      " \n Actual: \n\t\t " ++ R.timeString t) f
  match f.self.actual with
  | .typedNil (.ptr .time) => .panic (.msg "Value is nil") f
  | .ptr _ (.time t) => check t
  | .time t => check t
  | _ => .panic (.msg "Value is not a time") f

/-- Run a chain operation as a method on the receiver of the frame; `none`
when the polling loop is out of fuel. -/
def Op.exec (R : Runtime) (f : Frame) : Op → Option (Exit Bool)
  | .equals expected => some (Method.Equals R expected f)
  | .notEquals other => some (Method.NotEquals R other f)
  | .containsString substr => some (Method.ContainsString R substr f)
  | .isTrue => some (Method.IsTrue R f)
  | .isFalse => some (Method.IsFalse R f)
  | .isEmpty => some (Method.IsEmpty R f)
  | .isNotEmpty => some (Method.IsNotEmpty R f)
  | .isNotNil => some (Method.IsNotNil R f)
  | .isNil => some (Method.IsNil R f)
  | .hasLen expected => some (Method.HasLen expected f)
  | .panics body => some (Method.Panics R body f)
  | .eventuallyEquals expected calls sel fuel =>
    Method.EventuallyEquals R expected calls sel fuel f
  | .withinTime other diff => some (Method.WithinTime R other diff f)

/-- A frame whose chain wraps the int 1, with a registered context. -/
def sampleFrame : Frame :=
  { world := sampleWorld, self := { actual := .int 1 } }

/-! ## `describe` statement by statement -/

/-- The method `Value.Type` of package `reflect`: a panic on the zero `Value`,
which is what `reflect.ValueOf` returns for the absent value. -/
def reflectType (v : Value) : Except Panic GoType :=
  match typeOf v with
  | none => .error (.runtime "reflect: call of reflect.Value.Type on zero Value")
  | some t => .ok t

/-- An operand of `fmt.Sprintf`: a `reflect.Type` or an interface value. -/
inductive FmtArg where
  | type (t : GoType)
  | value (v : Value)

/-- An operand with its type in front, as `fmt` prints it in its error
forms. -/
def fmtTyped (R : Runtime) : FmtArg → String
  | .type t => "*reflect.rtype=" ++ typeString t
  | .value v =>
    match typeOf v with
    | none => "<nil>"
    | some t => typeString t ++ "=" ++ R.fmtV v

/-- How `fmt` prints an operand under a verb. A `reflect.Type` is a Stringer
and prints its `String()` under `%s` and `%v`; a value prints its default
rendering under `%v`, the only verb `describe` applies to a value. Every
other pair of verb and operand is printed in the bad-verb form
`%!verb(type=value)`. -/
def fmtOperand (R : Runtime) (verb : Char) (a : FmtArg) : String :=
  match a with
  | .type t =>
    if verb = 's' ∨ verb = 'v' then typeString t
    else "%!" ++ String.singleton verb ++ "(" ++ fmtTyped R a ++ ")"
  | .value v =>
    if verb = 'v' then R.fmtV v
    else "%!" ++ String.singleton verb ++ "(" ++ fmtTyped R a ++ ")"

/-- The report of `fmt` on operands that no verb used. -/
def fmtExtras (R : Runtime) (args : List FmtArg) : String :=
  if args.isEmpty then ""
  else "%!(EXTRA " ++ ", ".intercalate (args.map (fmtTyped R)) ++ ")"

/-- The function `fmt.Sprintf` on a format of plain text and one-letter verbs:
text is copied, `%%` prints a percent sign, a verb prints the next operand,
a verb without operand prints `%!verb(MISSING)`, operands left over are
reported at the end. -/
def sprintfChars (R : Runtime) : List Char → List FmtArg → String
  | [], args => fmtExtras R args
  | c :: cs, args =>
    if c = '%' then
      match cs, args with
      | [], _ => "%!(NOVERB)" ++ fmtExtras R args
      | verb :: rest, [] =>
        if verb = '%' then "%" ++ sprintfChars R rest []
        else "%!" ++ String.singleton verb ++ "(MISSING)" ++ sprintfChars R rest []
      | verb :: rest, a :: more =>
        if verb = '%' then "%" ++ sprintfChars R rest (a :: more)
        else fmtOperand R verb a ++ sprintfChars R rest more
    else String.singleton c ++ sprintfChars R cs args

/-- The function `describe`, statement by statement, with the panic its calls
can raise: `reflect.ValueOf(v)`, the test `v == nil`, then `value.Type()` and
the call of `fmt.Sprintf` with the format `[%s] %v`. -/
def describeRun (R : Runtime) (v : Value) : Except Panic String :=
  match v with
  | .nil => .ok "[nil] nil"
  | _ =>
    match reflectType v with
    | .error p => .error p
    | .ok t => .ok (sprintfChars R "[%s] %v".data [.type t, .value v])

/-! ## Theorems -/

theorem failWith_registered (msg : String) (w : World) (t : TestT) (h : w.currentT = some t) :
    failWith msg w =
      .ret false { w with currentT := some { failures := t.failures ++ [msg] } } := by
  simp [failWith, tError, h]

theorem expect_registered (v : Value) (w : World) (t : TestT) (h : w.currentT = some t) :
    Expect v w = .ret { actual := v } w := by
  simp [Expect, h]

/-- C1: with a test context registered, `Equals` returns exactly the result of
the structural comparison of expected and actual, `NotEquals` returns the
negation of what `Equals` returns, and for a pair that is not deeply equal
`NotEquals` returns true and `Equals` returns false. -/
theorem equals_notEquals_follow_deepEqual (R : Runtime) (w : World) (t : TestT)
    (hreg : w.currentT = some t) (v1 v2 : Value) :
    ∃ a, Expect v1 w = .ret a w ∧
      (Equals R a v2 w).value = some (DeepEqual v2 v1) ∧
      (NotEquals R a v2 w).value = (Equals R a v2 w).value.map (fun b => !b) ∧
      (DeepEqual v2 v1 = false →
        (NotEquals R a v2 w).value = some true ∧ (Equals R a v2 w).value = some false) := by
  refine ⟨{ actual := v1 }, expect_registered v1 w t hreg, ?_⟩
  cases hd : DeepEqual v2 v1 <;>
    simp [Equals, NotEquals, hd, failWith_registered _ w t hreg, Res.value]

theorem equals_notEquals_follow_deepEqual_witness :
    ∃ a, Expect (.int 1) sampleWorld = .ret a sampleWorld ∧
      (Equals (sampleRuntime false) a (.int 2) sampleWorld).value
        = some (DeepEqual (.int 2) (.int 1)) ∧
      (NotEquals (sampleRuntime false) a (.int 2) sampleWorld).value
        = (Equals (sampleRuntime false) a (.int 2) sampleWorld).value.map (fun b => !b) ∧
      (DeepEqual (.int 2) (.int 1) = false →
        (NotEquals (sampleRuntime false) a (.int 2) sampleWorld).value = some true ∧
        (Equals (sampleRuntime false) a (.int 2) sampleWorld).value = some false) :=
  equals_notEquals_follow_deepEqual (sampleRuntime false) sampleWorld { failures := [] } rfl
    (.int 1) (.int 2)

/-! ### Reflexivity of the structural comparison -/

mutual
theorem deepValueEqual_self : ∀ v : Value, deepValueEqual v v = selfEqual v
  | .nil => by simp [deepValueEqual, selfEqual]
  | .bool _ => by simp [deepValueEqual, selfEqual]
  | .int _ => by simp [deepValueEqual, selfEqual]
  | .int64 _ => by simp [deepValueEqual, selfEqual]
  | .float64 b => by
    simp only [deepValueEqual, selfEqual, floatEq]
    cases isNaN b <;> simp
  | .string _ => by simp [deepValueEqual, selfEqual]
  | .time _ => by simp [deepValueEqual, selfEqual]
  | .func _ _ _ _ _ => by simp [deepValueEqual, selfEqual]
  | .typedNil _ => by simp [deepValueEqual, selfEqual]
  | .ptr _ _ => by simp [deepValueEqual, selfEqual]
  | .slice _ _ _ => by simp [deepValueEqual, selfEqual]
  | .array _ elems => by
    simp [deepValueEqual, selfEqual, deepValuesEqual_self elems]
  | .struct _ fields => by
    simp [deepValueEqual, selfEqual, deepValuesEqual_self fields]
  | .map _ _ _ _ => by simp [deepValueEqual, selfEqual]
  | .chan _ _ _ => by simp [deepValueEqual, selfEqual]
theorem deepValuesEqual_self : ∀ vs : Values, deepValuesEqual vs vs = selfEqualAll vs
  | .nil => by simp [deepValuesEqual, selfEqualAll]
  | .cons v rest => by
    simp [deepValuesEqual, selfEqualAll, deepValueEqual_self v, deepValuesEqual_self rest]
end

theorem deepEqual_self (v : Value) : DeepEqual v v = selfEqual v := by
  cases v <;> simp [DeepEqual, deepValueEqual_self, selfEqual]

/-- C2 as stated fails: a NaN is not deeply equal to itself and neither is a
function value, so `Equals` on a chain wrapping a NaN, given the same NaN,
returns false and records a failure. -/
theorem deepEqual_not_reflexive :
    DeepEqual (.float64 nanBits) (.float64 nanBits) = false ∧
    DeepEqual (.func "func()" 0 false 0 4096) (.func "func()" 0 false 0 4096) = false ∧
    (Equals (sampleRuntime false) { actual := .float64 nanBits } (.float64 nanBits)
      sampleWorld).value = some false ∧
    (Equals (sampleRuntime false) { actual := .float64 nanBits } (.float64 nanBits)
      sampleWorld).world.failures.length = 1 := by
  decide

/-- C2, amended: the structural comparison of `v` with `v` is true exactly for
the values in which no NaN and no non-nil function is reached through array
elements and struct fields, and for these values, with a test context
registered, `Expect(v).Equals(v)` returns true and leaves the world as it
was. -/
theorem deepEqual_reflexive_on_selfEqual (R : Runtime) (w : World) (v : Value) :
    (DeepEqual v v = true ↔ selfEqual v = true) ∧
    (selfEqual v = true → ∀ t, w.currentT = some t →
      ∃ a, Expect v w = .ret a w ∧ Equals R a v w = .ret true w) := by
  refine ⟨by rw [deepEqual_self], fun hs t ht => ?_⟩
  refine ⟨{ actual := v }, expect_registered v w t ht, ?_⟩
  simp [Equals, deepEqual_self, hs]

theorem deepEqual_reflexive_on_selfEqual_witness :
    selfEqual (.struct "T" (.cons (.ptr 1 (.float64 nanBits)) (.cons (.int 3) .nil))) = true ∧
    ∃ a, Expect (.struct "T" (.cons (.ptr 1 (.float64 nanBits)) (.cons (.int 3) .nil)))
        sampleWorld = .ret a sampleWorld ∧
      Equals (sampleRuntime false) a
        (.struct "T" (.cons (.ptr 1 (.float64 nanBits)) (.cons (.int 3) .nil))) sampleWorld
        = .ret true sampleWorld :=
  ⟨by decide,
   (deepEqual_reflexive_on_selfEqual (sampleRuntime false) sampleWorld
      (.struct "T" (.cons (.ptr 1 (.float64 nanBits)) (.cons (.int 3) .nil)))).2
      (by decide) { failures := [] } rfl⟩

/-! ### Failures are reported once -/

theorem reports_ret_true (w w1 : World) (h : w1.currentT = w.currentT) :
    Reports w (.ret true w1) := by
  intro b w2 hr
  cases hr
  simp [World.failures, h]

theorem reports_panic (w w1 : World) (p : Panic) : Reports w (.panic p w1 : Res Bool) := by
  intro b w2 hr
  cases hr

theorem reports_failWith (w w1 : World) (t : TestT) (hreg : w.currentT = some t)
    (h : w1.currentT = w.currentT) (msg : String) : Reports w (failWith msg w1) := by
  intro b w2 hr
  rw [failWith_registered msg w1 t (h.trans hreg)] at hr
  cases hr
  simp [World.failures, hreg]

theorem reports_equals (R : Runtime) (a : AnyAssertions) (w : World) (t : TestT)
    (hreg : w.currentT = some t) (e : Value) : Reports w (Equals R a e w) := by
  unfold Equals
  split
  · exact reports_ret_true w w rfl
  · exact reports_failWith w w t hreg rfl _

theorem reports_notEquals (R : Runtime) (a : AnyAssertions) (w : World) (t : TestT)
    (hreg : w.currentT = some t) (e : Value) : Reports w (NotEquals R a e w) := by
  unfold NotEquals
  split
  · exact reports_ret_true w w rfl
  · exact reports_failWith w w t hreg rfl _

theorem reports_containsString (R : Runtime) (a : AnyAssertions) (w : World) (t : TestT)
    (hreg : w.currentT = some t) (s : String) : Reports w (ContainsString R a s w) := by
  unfold ContainsString
  split
  · split
    · exact reports_ret_true w w rfl
    · exact reports_failWith w w t hreg rfl _
  · exact reports_panic w w _

theorem reports_isNotNil (R : Runtime) (a : AnyAssertions) (w : World) (t : TestT)
    (hreg : w.currentT = some t) : Reports w (IsNotNil R a w) := by
  unfold IsNotNil
  split
  · exact reports_failWith w w t hreg rfl _
  · split
    · exact reports_panic w w _
    · split
      · exact reports_ret_true w w rfl
      · exact reports_failWith w w t hreg rfl _

theorem reports_isNil (R : Runtime) (a : AnyAssertions) (w : World) (t : TestT)
    (hreg : w.currentT = some t) : Reports w (IsNil R a w) := by
  unfold IsNil
  split
  · exact reports_ret_true w w rfl
  · split
    · exact reports_panic w w _
    · split
      · exact reports_ret_true w w rfl
      · exact reports_failWith w w t hreg rfl _

theorem reports_hasLen (a : AnyAssertions) (w : World) (t : TestT)
    (hreg : w.currentT = some t) (n : Int) : Reports w (HasLen a n w) := by
  unfold HasLen
  split
  · exact reports_panic w w _
  · split
    · exact reports_ret_true w w rfl
    · exact reports_failWith w w t hreg rfl _

theorem reports_withinTime (R : Runtime) (a : AnyAssertions) (w : World) (t : TestT)
    (hreg : w.currentT = some t) (other : Time) (diff : Int) :
    Reports w (WithinTime R a other diff w) := by
  unfold WithinTime
  split
  · exact reports_panic w w _
  · simp only []
    split
    · exact reports_ret_true w w rfl
    · exact reports_failWith w w t hreg rfl _
  · simp only []
    split
    · exact reports_ret_true w w rfl
    · exact reports_failWith w w t hreg rfl _
  · exact reports_panic w w _

theorem reflectCall_currentT (f : Value) (body : CallOutcome) (w : World) :
    (reflectCall f body w).2.currentT = w.currentT := by
  unfold reflectCall
  split
  · split <;> split <;> rfl
  · rfl
  · rfl

theorem recoveredNonNil_of_setting (pn : Bool) (p : Panic)
    (h : pn = false ∨ p ≠ .user .nil) : recoveredNonNil pn p = true := by
  cases p with
  | msg s => rfl
  | runtime s => rfl
  | user v =>
    cases v <;> simp_all [recoveredNonNil]

theorem reflectCall_panics (f : Value) (body : CallOutcome) (w w1 : World) (p : Panic)
    (h : reflectCall f body w = (.panics p, w1)) :
    (∃ s, p = .runtime s) ∨ body = .panics p := by
  unfold reflectCall at h
  split at h
  · split at h <;> split at h <;>
      first
        | (cases h; exact Or.inl ⟨_, rfl⟩)
        | (cases h; exact Or.inr rfl)
  · cases h; exact Or.inl ⟨_, rfl⟩
  · cases h; exact Or.inl ⟨_, rfl⟩

theorem tError_registered (msg : String) (w : World) (t : TestT) (h : w.currentT = some t) :
    tError msg w = .ret () { w with currentT := some { failures := t.failures ++ [msg] } } := by
  simp [tError, h]

theorem reports_panics (R : Runtime) (a : AnyAssertions) (w : World) (t : TestT)
    (hreg : w.currentT = some t) (body : CallOutcome)
    (h : R.panicnil = false ∨ body ≠ .panics (.user .nil)) :
    Reports w (Panics R a body w) := by
  unfold Panics
  split
  · exact reports_panic w w _
  · have hc := reflectCall_currentT a.actual body w
    split
    · rename_i p w1 heq
      rw [heq] at hc
      have hp : recoveredNonNil R.panicnil p = true := by
        apply recoveredNonNil_of_setting
        rcases h with h | h
        · exact Or.inl h
        · rcases reflectCall_panics _ _ _ _ _ heq with ⟨s, hs⟩ | hb
          · right; rw [hs]; simp
          · right; intro hp; apply h; rw [hb, hp]
      rw [hp]
      exact reports_ret_true w w1 hc
    · rename_i vals w1 heq
      rw [heq] at hc
      rw [tError_registered _ w1 t (hc.trans hreg)]
      intro b w2 hr
      cases hr
      simp [World.failures, hreg]

theorem reports_loop (R : Runtime) (a : AnyAssertions) (w : World) (t : TestT)
    (hreg : w.currentT = some t) (expected : Value) (calls : Nat → CallOutcome)
    (sel : Nat → SelectEvent) :
    ∀ (fuel i : Nat) (w1 : World) (r : Res Bool), w1.currentT = w.currentT →
      EventuallyEquals.loop R a expected calls sel fuel i w1 = some r → Reports w r := by
  intro fuel
  induction fuel with
  | zero => intro i w1 r _ h; simp [EventuallyEquals.loop] at h
  | succ n ih =>
    intro i w1 r hw h
    have hc := reflectCall_currentT a.actual (calls i) w1
    unfold EventuallyEquals.loop at h
    split at h
    · cases h; exact reports_panic w _ _
    · cases h; exact reports_panic w _ _
    · rename_i v rest w2 heq
      rw [heq] at hc
      split at h
      · cases h; exact reports_ret_true w w2 (hc.trans hw)
      · split at h
        · cases h; exact reports_failWith w w2 t hreg (hc.trans hw) _
        · exact ih (i + 1) w2 r (hc.trans hw) h

theorem reports_eventuallyEquals (R : Runtime) (a : AnyAssertions) (w : World) (t : TestT)
    (hreg : w.currentT = some t) (expected : Value) (calls : Nat → CallOutcome)
    (sel : Nat → SelectEvent) (fuel : Nat) (r : Res Bool)
    (h : EventuallyEquals R a expected calls sel fuel w = some r) : Reports w r := by
  unfold EventuallyEquals at h
  split at h
  · cases h; exact reports_panic w w _
  · exact reports_loop R a w t hreg expected calls sel fuel 0 w r rfl h

/-- Every chain operation other than `Panics` on a callable that panics with
nil under the setting `panicnil` reports correctly. -/
theorem op_reports (R : Runtime) (a : AnyAssertions) (w : World) (t : TestT)
    (hreg : w.currentT = some t) (op : Op)
    (hnil : R.panicnil = false ∨ op ≠ .panics (.panics (.user .nil)))
    (r : Res Bool) (h : op.run R a w = some r) : Reports w r := by
  cases op with
  | equals e => cases h; exact reports_equals R a w t hreg e
  | notEquals e => cases h; exact reports_notEquals R a w t hreg e
  | containsString s => cases h; exact reports_containsString R a w t hreg s
  | isTrue => cases h; exact reports_equals R a w t hreg _
  | isFalse => cases h; exact reports_equals R a w t hreg _
  | isEmpty => cases h; exact reports_equals R a w t hreg _
  | isNotEmpty => cases h; exact reports_notEquals R a w t hreg _
  | isNotNil => cases h; exact reports_isNotNil R a w t hreg
  | isNil => cases h; exact reports_isNil R a w t hreg
  | hasLen n => cases h; exact reports_hasLen a w t hreg n
  | panics body =>
    cases h
    apply reports_panics R a w t hreg body
    rcases hnil with h1 | h1
    · exact Or.inl h1
    · right; intro hb; apply h1; rw [hb]
  | eventuallyEquals e calls sel fuel => exact reports_eventuallyEquals R a w t hreg e calls sel fuel r h
  | withinTime other diff => cases h; exact reports_withinTime R a w t hreg other diff

/-- C3 fails on the code at one input: under the setting `panicnil`, `Panics`
on a callable that panics with nil returns false although no diagnostic has
been appended to the failures of the test context. -/
theorem panics_false_without_diagnostic :
    ((Op.panics (.panics (.user .nil))).run (sampleRuntime true)
        { actual := .func "func()" 0 false 0 4096 } sampleWorld).map Res.value
      = some (some false) ∧
    ((Op.panics (.panics (.user .nil))).run (sampleRuntime true)
        { actual := .func "func()" 0 false 0 4096 } sampleWorld).map
          (fun r => r.world.failures)
      = some sampleWorld.failures := by
  decide

/-! ### `WithinTime` -/

theorem tdiv_tmod_billion (d : Int) :
    d = 1000000000 * Int.tdiv d 1000000000 + Int.tmod d 1000000000 ∧
    (0 ≤ d → 0 ≤ Int.tmod d 1000000000 ∧ Int.tmod d 1000000000 < 1000000000) ∧
    (d < 0 → -1000000000 < Int.tmod d 1000000000 ∧ Int.tmod d 1000000000 ≤ 0) := by
  have hdef := Int.tmod_def d 1000000000
  by_cases hd : 0 ≤ d
  · have hq : Int.tdiv d 1000000000 = d / 1000000000 := Int.tdiv_eq_ediv hd (by decide)
    rw [hq] at hdef
    rw [hq, hdef]
    omega
  · have hq : Int.tdiv (-d) 1000000000 = (-d) / 1000000000 :=
      Int.tdiv_eq_ediv (by omega) (by decide)
    rw [Int.neg_tdiv] at hq
    have hq2 : Int.tdiv d 1000000000 = -((-d) / 1000000000) := by omega
    rw [hq2] at hdef
    rw [hq2, hdef]
    omega

theorem wrap64_of_inRange (x : Int) (h1 : -(2 ^ 63) ≤ x) (h2 : x < 2 ^ 63) : wrap64 x = x := by
  unfold wrap64
  omega

theorem addSec_exact (ext d : Int) (h1 : -(2 ^ 63) ≤ ext + d) (h2 : ext + d < 2 ^ 63) :
    addSec ext d = ext + d := by
  unfold addSec
  rw [wrap64_of_inRange _ h1 h2]
  simp only []
  have : decide (ext + d > ext) = decide (d > 0) := by
    by_cases hd : d > 0
    · simp [hd]
    · simp [hd]
  simp [this]

theorem add_nanos (t : Time) (d : Int) (ht : t.valid)
    (hr : instantInRange (t.nanos + d)) :
    (t.Add d).nanos = t.nanos + d ∧ (t.Add d).valid := by
  obtain ⟨hd, hpos, hneg⟩ := tdiv_tmod_billion d
  obtain ⟨hs1, hs2, hn⟩ := ht
  unfold instantInRange Time.nanos at hr
  obtain ⟨hr1, hr2⟩ := hr
  generalize hq : Int.tdiv d 1000000000 = q at *
  generalize hm : Int.tmod d 1000000000 = r at *
  have hrb : -1000000000 < r ∧ r < 1000000000 := by
    by_cases h0 : 0 ≤ d
    · have := hpos h0; omega
    · have := hneg (by omega); omega
  unfold Time.Add
  simp only [hq, hm]
  split
  · rename_i hge
    have e : addSec t.sec (q + 1) = t.sec + (q + 1) := addSec_exact _ _ (by omega) (by omega)
    simp only [Time.nanos, Time.valid, e]
    omega
  · split
    · rename_i hlt
      have e : addSec t.sec (q - 1) = t.sec + (q - 1) := addSec_exact _ _ (by omega) (by omega)
      simp only [Time.nanos, Time.valid, e]
      omega
    · have e : addSec t.sec q = t.sec + q := addSec_exact _ _ (by omega) (by omega)
      simp only [Time.nanos, Time.valid, e]
      omega

theorem after_iff_nanos (t u : Time) (ht : t.valid) (hu : u.valid) :
    t.After u = decide (u.nanos < t.nanos) := by
  obtain ⟨_, _, hn⟩ := ht
  obtain ⟨_, _, hm⟩ := hu
  unfold Time.After Time.nanos
  rw [Bool.eq_iff_iff]
  simp only [Bool.or_eq_true, Bool.and_eq_true, decide_eq_true_eq]
  omega

theorem before_iff_nanos (t u : Time) (ht : t.valid) (hu : u.valid) :
    t.Before u = decide (t.nanos < u.nanos) := by
  obtain ⟨_, _, hn⟩ := ht
  obtain ⟨_, _, hm⟩ := hu
  unfold Time.Before Time.nanos
  rw [Bool.eq_iff_iff]
  simp only [Bool.or_eq_true, Bool.and_eq_true, decide_eq_true_eq]
  omega


theorem bounds_check (t other : Time) (diff : Int) (ht : t.valid) (ho : other.valid)
    (hd : durationInRange diff) (hlo : instantInRange (other.nanos - diff))
    (hhi : instantInRange (other.nanos + diff)) :
    (t.After (other.Add (wrap64 (diff * -1))) && t.Before (other.Add diff))
      = decide (withinOpenInterval t other diff) := by
  obtain ⟨hu, huv⟩ := add_nanos other diff ho hhi
  rw [before_iff_nanos t _ ht huv, hu]
  by_cases hmin : diff = -(2 ^ 63)
  · have hw : wrap64 (diff * -1) = diff := by subst hmin; decide
    rw [hw, after_iff_nanos t _ ht huv, hu]
    rw [Bool.eq_iff_iff]
    simp only [Bool.and_eq_true, decide_eq_true_eq, withinOpenInterval]
    omega
  · have hw : wrap64 (diff * -1) = -diff := by
      unfold durationInRange at hd
      rw [show diff * -1 = -diff by ring]
      exact wrap64_of_inRange _ (by omega) (by omega)
    have hlo2 : instantInRange (other.nanos + -diff) := by
      rw [← sub_eq_add_neg]; exact hlo
    obtain ⟨hl, hlv⟩ := add_nanos other (-diff) ho hlo2
    rw [hw, after_iff_nanos t _ ht hlv, hl]
    rw [Bool.eq_iff_iff]
    simp only [Bool.and_eq_true, decide_eq_true_eq, withinOpenInterval]
    omega

theorem withinTime_value (R : Runtime) (w : World) (tc : TestT) (hreg : w.currentT = some tc)
    (v : Value) (t other : Time) (diff : Int) (hv : wrapsTime v t)
    (ht : t.valid) (ho : other.valid)
    (hd : durationInRange diff) (hlo : instantInRange (other.nanos - diff))
    (hhi : instantInRange (other.nanos + diff)) :
    (WithinTime R { actual := v } other diff w).value
      = some (decide (withinOpenInterval t other diff)) ∧
    (withinOpenInterval t other diff → WithinTime R { actual := v } other diff w = .ret true w) := by
  have hb := bounds_check t other diff ht ho hd hlo hhi
  rcases hv with hv | ⟨addr, hv⟩ <;> subst hv <;>
    simp only [WithinTime, hb] <;>
    by_cases hin : withinOpenInterval t other diff <;>
    simp [hin, failWith_registered _ w tc hreg, Res.value]


/-- C4 as stated fails: at the end of the range of `time.Time` the upper bound
`other.Add(diff)` stays at `other`, so `WithinTime` returns false for a time
that lies strictly between `other - diff` and `other + diff`. -/
theorem withinTime_false_inside_interval_at_range_end :
    maxTime.valid ∧ durationInRange 1000000000 ∧
    withinOpenInterval maxTime maxTime 1000000000 ∧
    (WithinTime (sampleRuntime false) { actual := .time maxTime } maxTime 1000000000
      sampleWorld).value = some false := by
  decide

/-- C4, amended: for well-formed times `t` and `other` and a duration `diff`
such that the instants `other - diff` and `other + diff` are in the range of
`time.Time`, with a test context registered, `WithinTime(other, diff)` on a
chain wrapping `t` (as a value or behind a non-nil pointer) returns true if and
only if `other - diff < t < other + diff`, and returns false otherwise, in
particular when `t` is one of the two bounds. -/
theorem withinTime_iff_open_interval (R : Runtime) (w : World) (tc : TestT)
    (hreg : w.currentT = some tc) (v : Value) (t other : Time) (diff : Int)
    (hv : wrapsTime v t) (ht : t.valid) (ho : other.valid) (hd : durationInRange diff)
    (hlo : instantInRange (other.nanos - diff)) (hhi : instantInRange (other.nanos + diff)) :
    ((WithinTime R { actual := v } other diff w).value = some true ↔
      (other.nanos - diff < t.nanos ∧ t.nanos < other.nanos + diff)) ∧
    ((WithinTime R { actual := v } other diff w).value = some false ↔
      ¬ (other.nanos - diff < t.nanos ∧ t.nanos < other.nanos + diff)) ∧
    (t.nanos = other.nanos - diff ∨ t.nanos = other.nanos + diff →
      (WithinTime R { actual := v } other diff w).value = some false) := by
  have h := (withinTime_value R w tc hreg v t other diff hv ht ho hd hlo hhi).1
  rw [h]
  unfold withinOpenInterval
  refine ⟨by simp, by simp, fun hb => ?_⟩
  simp only [Option.some.injEq, decide_eq_false_iff_not]
  omega

theorem withinTime_iff_open_interval_witness :
    ((WithinTime (sampleRuntime false) { actual := .ptr 64 (.time sampleTime) } sampleTime 5
        sampleWorld).value = some true ↔
      (sampleTime.nanos - 5 < sampleTime.nanos ∧ sampleTime.nanos < sampleTime.nanos + 5)) ∧
    ((WithinTime (sampleRuntime false) { actual := .ptr 64 (.time sampleTime) } sampleTime 5
        sampleWorld).value = some false ↔
      ¬ (sampleTime.nanos - 5 < sampleTime.nanos ∧ sampleTime.nanos < sampleTime.nanos + 5)) ∧
    (sampleTime.nanos = sampleTime.nanos - 5 ∨ sampleTime.nanos = sampleTime.nanos + 5 →
      (WithinTime (sampleRuntime false) { actual := .ptr 64 (.time sampleTime) } sampleTime 5
        sampleWorld).value = some false) :=
  withinTime_iff_open_interval (sampleRuntime false) sampleWorld { failures := [] } rfl
    (.ptr 64 (.time sampleTime)) sampleTime sampleTime 5 (Or.inr ⟨64, rfl⟩)
    (by decide) (by decide) (by decide) (by decide) (by decide)

/-- C5 as stated fails: `other` is the centre of the open interval, not a
bound of it, so with a positive `diff` the chain wrapping exactly `other`
passes. -/
theorem withinTime_true_at_other :
    (WithinTime (sampleRuntime false) { actual := .time sampleTime } sampleTime 1000000000
      sampleWorld).value = some true := by
  decide

/-- C5, amended: for a well-formed time `other` and a positive duration `diff`
whose double is still a duration, with `other - diff` and `other + diff*2` in
the range of `time.Time` and a test context registered, `WithinTime(other,
diff)` returns true on a chain wrapping exactly `other`, true on a chain
wrapping `other + diff/2`, and false on a chain wrapping `other + diff*2`. -/
theorem withinTime_centre_half_double (R : Runtime) (w : World) (tc : TestT)
    (hreg : w.currentT = some tc) (other : Time) (diff : Int) (ho : other.valid)
    (hpos : 0 < diff) (hdbl : diff * 2 < 2 ^ 63)
    (hlo : instantInRange (other.nanos - diff))
    (hhi : instantInRange (other.nanos + diff * 2)) :
    (WithinTime R { actual := .time other } other diff w).value = some true ∧
    (WithinTime R { actual := .time (other.Add (Int.tdiv diff 2)) } other diff w).value
      = some true ∧
    (WithinTime R { actual := .time (other.Add (wrap64 (diff * 2))) } other diff w).value
      = some false := by
  have hd : durationInRange diff := by unfold durationInRange; omega
  have hlo2 := hlo
  have hhi2 := hhi
  unfold instantInRange at hlo2 hhi2
  have hup : instantInRange (other.nanos + diff) := by unfold instantInRange; omega
  have hhalf : Int.tdiv diff 2 = diff / 2 := Int.tdiv_eq_ediv (by omega) (by decide)
  have hw : wrap64 (diff * 2) = diff * 2 := wrap64_of_inRange _ (by omega) hdbl
  obtain ⟨n1, v1⟩ := add_nanos other (diff / 2) ho (by unfold instantInRange; omega)
  obtain ⟨n2, v2⟩ := add_nanos other (diff * 2) ho hhi
  rw [hhalf, hw]
  refine ⟨?_, ?_, ?_⟩
  · rw [(withinTime_value R w tc hreg _ other other diff (Or.inl rfl) ho ho hd hlo hup).1]
    simp only [Option.some.injEq, decide_eq_true_eq, withinOpenInterval]
    omega
  · rw [(withinTime_value R w tc hreg _ _ other diff (Or.inl rfl) v1 ho hd hlo hup).1]
    simp only [Option.some.injEq, decide_eq_true_eq, withinOpenInterval, n1]
    omega
  · rw [(withinTime_value R w tc hreg _ _ other diff (Or.inl rfl) v2 ho hd hlo hup).1]
    simp only [Option.some.injEq, decide_eq_false_iff_not, withinOpenInterval, n2]
    omega

theorem withinTime_centre_half_double_witness :
    (WithinTime (sampleRuntime false) { actual := .time sampleTime } sampleTime 7
      sampleWorld).value = some true ∧
    (WithinTime (sampleRuntime false) { actual := .time (sampleTime.Add (Int.tdiv 7 2)) }
      sampleTime 7 sampleWorld).value = some true ∧
    (WithinTime (sampleRuntime false) { actual := .time (sampleTime.Add (wrap64 (7 * 2))) }
      sampleTime 7 sampleWorld).value = some false :=
  withinTime_centre_half_double (sampleRuntime false) sampleWorld { failures := [] } rfl
    sampleTime 7 (by decide) (by decide) (by decide) (by decide) (by decide)

/-! ### `Panics`, `EventuallyEquals` and the nil checks -/

/-- C6 as stated fails: a function that takes an argument passes
`mustBeFunction`, the panic of `Call` for the missing argument is recovered,
and `Panics` returns true with nothing invoked and nothing recorded. -/
theorem panics_true_on_function_with_argument :
    (Panics (sampleRuntime false) { actual := .func "func(int)" 1 false 0 4096 }
      (.returns []) sampleWorld).value = some true ∧
    (Panics (sampleRuntime false) { actual := .func "func(int)" 1 false 0 4096 }
      (.returns []) sampleWorld).world = sampleWorld := by
  decide

/-- C6, amended: for every actual value that is not a function (the absent
value or a value whose kind is not `Func`), `Panics` aborts with a panic that
propagates to the caller, whatever the context; it returns no boolean, invokes
nothing and leaves the world, with its recorded failures, as it was. -/
theorem panics_aborts_on_non_function (R : Runtime) (w : World) (v : Value)
    (body : CallOutcome) (h : ∀ t, typeOf v = some t → t.kind ≠ .Func) :
    (∃ p, Panics R { actual := v } body w = .panic p w) ∧
    (Panics R { actual := v } body w).value = none ∧
    (Panics R { actual := v } body w).world = w := by
  have hm : ∃ p, mustBeFunction v = some p := by
    unfold mustBeFunction
    cases ht : typeOf v with
    | none => exact ⟨_, rfl⟩
    | some t => simp [h t ht]
  obtain ⟨p, hp⟩ := hm
  simp [Panics, hp, Res.value, Res.world]

theorem panics_aborts_on_non_function_witness :
    (∃ p, Panics (sampleRuntime false) { actual := .int 3 } (.returns []) sampleWorld
      = .panic p sampleWorld) ∧
    (Panics (sampleRuntime false) { actual := .int 3 } (.returns []) sampleWorld).value = none ∧
    (Panics (sampleRuntime false) { actual := .int 3 } (.returns []) sampleWorld).world
      = sampleWorld :=
  panics_aborts_on_non_function (sampleRuntime false) sampleWorld (.int 3) (.returns [])
    (by intro t ht; cases ht; decide)

theorem callable_call (f : Value) (hf : zeroArgCallable f = true) :
    mustBeFunction f = none ∧
    ∀ body w, reflectCall f body w = (body, { w with invoked := w.invoked + 1 }) := by
  cases f <;> simp [zeroArgCallable] at hf
  rename_i sig numIn variadic numOut addr
  refine ⟨by simp [mustBeFunction, typeOf, GoType.kind], fun body w => ?_⟩
  simp [reflectCall, hf]

/-- What `Panics` does on a callable: when the invocation returns, false with
the one diagnostic; when it panics with a value that `recover` returns as
non-nil, true with nothing recorded. The callable is invoked once. -/
theorem panics_on_callable (R : Runtime) (w : World) (tc : TestT)
    (hreg : w.currentT = some tc) (f : Value) (hf : zeroArgCallable f = true) :
    (∀ vals, Panics R { actual := f } (.returns vals) w = .ret false
      { currentT := some { failures := tc.failures ++
          ["Panics assertion failed. \n Given function didn't panic"] },
        invoked := w.invoked + 1 }) ∧
    (∀ p, recoveredNonNil R.panicnil p = true →
      Panics R { actual := f } (.panics p) w = .ret true { w with invoked := w.invoked + 1 }) := by
  obtain ⟨hm, hc⟩ := callable_call f hf
  refine ⟨fun vals => ?_, fun p hp => ?_⟩
  · simp [Panics, hm, hc, tError, hreg]
  · simp [Panics, hm, hc, hp]

/-- C7 fails on the code at one input: under the setting `panicnil`, a callable
of type `func()` that panics with nil is invoked once, its panic does not
propagate, and `Panics` returns false (and records nothing) although the
invocation panicked; without the setting the same call returns true. -/
theorem panics_false_on_nil_panic :
    zeroArgCallable sampleFunc = true ∧
    (Panics (sampleRuntime true) { actual := sampleFunc } (.panics (.user .nil))
      sampleWorld).value = some false ∧
    (Panics (sampleRuntime true) { actual := sampleFunc } (.panics (.user .nil))
      sampleWorld).world = { sampleWorld with invoked := 1 } ∧
    (Panics (sampleRuntime false) { actual := sampleFunc } (.panics (.user .nil))
      sampleWorld).value = some true := by
  decide


theorem pollResult_some (expected : Value) (c : CallOutcome) (b : Bool)
    (h : pollResult expected c = some b) :
    ∃ v rest, c = .returns (v :: rest) ∧ DeepEqual expected v = b := by
  cases c with
  | panics p => simp [pollResult] at h
  | returns vals =>
    cases vals with
    | nil => simp [pollResult] at h
    | cons v rest =>
      simp only [pollResult, Option.some.injEq] at h
      exact ⟨v, rest, rfl, h⟩

theorem loop_skips_misses (R : Runtime) (a : AnyAssertions) (expected : Value)
    (calls : Nat → CallOutcome) (sel : Nat → SelectEvent)
    (hf : zeroArgCallable a.actual = true) :
    ∀ (k fuel i : Nat) (w : World),
      (∀ j, j < k → pollResult expected (calls (i + j)) = some false) →
      (∀ j, j < k → sel (i + j) = .tick) →
      EventuallyEquals.loop R a expected calls sel (fuel + k) i w
        = EventuallyEquals.loop R a expected calls sel fuel (i + k)
            { w with invoked := w.invoked + k } := by
  obtain ⟨_, hc⟩ := callable_call a.actual hf
  intro k
  induction k with
  | zero => intro fuel i w _ _; rfl
  | succ k ih =>
    intro fuel i w hmiss htick
    obtain ⟨v, rest, hv, hne⟩ := pollResult_some _ _ _ (hmiss 0 (by omega))
    have ht := htick 0 (by omega)
    simp only [Nat.add_zero] at hv ht
    have hstep : EventuallyEquals.loop R a expected calls sel (fuel + k + 1) i w
        = EventuallyEquals.loop R a expected calls sel (fuel + k) (i + 1)
            { w with invoked := w.invoked + 1 } := by
      simp [EventuallyEquals.loop, hc, hv, hne, ht]
    rw [show fuel + (k + 1) = fuel + k + 1 by omega, hstep]
    rw [ih fuel (i + 1) _ (fun j hj => by
        have := hmiss (j + 1) (by omega)
        rwa [show i + (j + 1) = i + 1 + j by omega] at this)
      (fun j hj => by
        have := htick (j + 1) (by omega)
        rwa [show i + (j + 1) = i + 1 + j by omega] at this)]
    simp only [show i + 1 + k = i + (k + 1) by omega,
      show w.invoked + 1 + k = w.invoked + (k + 1) by omega]

/-- C8: when the poll number `k` (counted from 0) is the first whose result is
deeply equal to expected and every select before it took a tick,
`EventuallyEquals` returns true with enough fuel for `k + 1` polls, the
callable has been invoked exactly `k + 1` times and nothing else of the world
has changed, so no failure is recorded; with `k = 0` this holds whatever the
selects would do, the first poll coming before any wait. -/
theorem eventuallyEquals_stops_at_first_match (R : Runtime) (a : AnyAssertions)
    (expected : Value) (calls : Nat → CallOutcome) (sel : Nat → SelectEvent) (w : World)
    (k fuel : Nat) (hf : zeroArgCallable a.actual = true)
    (hmiss : ∀ j, j < k → pollResult expected (calls j) = some false)
    (htick : ∀ j, j < k → sel j = .tick)
    (hhit : pollResult expected (calls k) = some true)
    (hfuel : k < fuel) :
    EventuallyEquals R a expected calls sel fuel w
      = some (.ret true { w with invoked := w.invoked + (k + 1) }) ∧
    (k = 0 → ∀ sel2 : Nat → SelectEvent,
      EventuallyEquals R a expected calls sel2 fuel w
        = some (.ret true { w with invoked := w.invoked + 1 })) := by
  obtain ⟨hm, hc⟩ := callable_call a.actual hf
  obtain ⟨v, rest, hv, heq⟩ := pollResult_some _ _ _ hhit
  have hlast : ∀ (s : Nat → SelectEvent) (n : Nat) (w1 : World),
      EventuallyEquals.loop R a expected calls s (n + 1) k w1
        = some (.ret true { w1 with invoked := w1.invoked + 1 }) := by
    intro s n w1
    simp [EventuallyEquals.loop, hc, hv, heq]
  obtain ⟨n, rfl⟩ : ∃ n, fuel = n + 1 + k := ⟨fuel - 1 - k, by omega⟩
  refine ⟨?_, fun hk sel2 => ?_⟩
  · unfold EventuallyEquals
    rw [hm]
    simp only []
    rw [loop_skips_misses R a expected calls sel hf k (n + 1) 0 w
      (fun j hj => by simpa using hmiss j hj) (fun j hj => by simpa using htick j hj)]
    rw [Nat.zero_add, hlast]
    simp [Nat.add_assoc]
  · subst hk
    unfold EventuallyEquals
    rw [hm]
    simp only []
    exact hlast sel2 n w

theorem eventuallyEquals_stops_at_first_match_witness :
    EventuallyEquals (sampleRuntime false) { actual := sampleFunc } (.int 1) sampleCalls
        (fun _ => .tick) 5 sampleWorld
      = some (.ret true { sampleWorld with invoked := sampleWorld.invoked + (2 + 1) }) ∧
    (2 = 0 → ∀ sel2 : Nat → SelectEvent,
      EventuallyEquals (sampleRuntime false) { actual := sampleFunc } (.int 1) sampleCalls
          sel2 5 sampleWorld
        = some (.ret true { sampleWorld with invoked := sampleWorld.invoked + 1 })) :=
  eventuallyEquals_stops_at_first_match (sampleRuntime false) { actual := sampleFunc } (.int 1)
    sampleCalls (fun _ => .tick) sampleWorld 2 5 (by decide) (by decide) (by decide)
    (by decide) (by decide)

/-- C9: for a zero-argument callable whose polls number 0 to `n` all return a
first result that is not deeply equal to expected, when the select after poll
`n` takes the deadline (those before it took ticks), `EventuallyEquals`
returns false and records exactly one diagnostic; its Actual part is the
description of the callable itself, its function type and the rendering of
the function value, and no returned value occurs in it. -/
theorem eventuallyEquals_deadline_describes_callable (R : Runtime) (a : AnyAssertions)
    (expected : Value) (calls : Nat → CallOutcome) (sel : Nat → SelectEvent) (w : World)
    (tc : TestT) (n fuel : Nat) (hreg : w.currentT = some tc)
    (hf : zeroArgCallable a.actual = true)
    (hmiss : ∀ j, j ≤ n → pollResult expected (calls j) = some false)
    (htick : ∀ j, j < n → sel j = .tick)
    (hdone : sel n = .done)
    (hfuel : n < fuel) :
    EventuallyEquals R a expected calls sel fuel w
      = some (.ret false
          { currentT := some { failures := tc.failures ++
              ["EventuallyEquals assertion failed. \n Expected: \n\t\t " ++
                describe R expected ++ " \n Actual: \n\t\t " ++ describe R a.actual] },
            invoked := w.invoked + (n + 1) }) ∧
    ∃ sig numIn variadic numOut,
      typeOf a.actual = some (.func sig numIn variadic numOut) ∧
      describe R a.actual = "[" ++ sig ++ "] " ++ R.fmtV a.actual := by
  obtain ⟨hm, hc⟩ := callable_call a.actual hf
  obtain ⟨v, rest, hv, hne⟩ := pollResult_some _ _ _ (hmiss n (Nat.le_refl n))
  obtain ⟨m, rfl⟩ : ∃ m, fuel = m + 1 + n := ⟨fuel - 1 - n, by omega⟩
  refine ⟨?_, ?_⟩
  · unfold EventuallyEquals
    rw [hm]
    simp only []
    rw [loop_skips_misses R a expected calls sel hf n (m + 1) 0 w
      (fun j hj => by simpa using hmiss j (by omega)) (fun j hj => by simpa using htick j hj)]
    rw [Nat.zero_add]
    simp [EventuallyEquals.loop, hc, hv, hne, hdone, failWith, tError, hreg, Nat.add_assoc]
  · cases ha : a.actual <;> simp [ha, zeroArgCallable] at hf
    simp [typeOf, describe, typeString]

theorem eventuallyEquals_deadline_describes_callable_witness :
    EventuallyEquals (sampleRuntime false) { actual := sampleFunc } (.int 7) sampleCalls
        (fun i => if i < 3 then .tick else .done) 9 sampleWorld
      = some (.ret false
          { currentT := some { failures := [] ++
              ["EventuallyEquals assertion failed. \n Expected: \n\t\t " ++
                describe (sampleRuntime false) (.int 7) ++ " \n Actual: \n\t\t " ++
                describe (sampleRuntime false) sampleFunc] },
            invoked := sampleWorld.invoked + (3 + 1) }) ∧
    ∃ sig numIn variadic numOut,
      typeOf sampleFunc = some (.func sig numIn variadic numOut) ∧
      describe (sampleRuntime false) sampleFunc
        = "[" ++ sig ++ "] " ++ (sampleRuntime false).fmtV sampleFunc :=
  eventuallyEquals_deadline_describes_callable (sampleRuntime false) { actual := sampleFunc }
    (.int 7) sampleCalls (fun i => if i < 3 then .tick else .done) sampleWorld
    { failures := [] } 3 9 rfl (by decide) (by decide) (by decide) (by decide) (by decide)


theorem reflectIsNil_nilable (v : Value) (t : GoType) (ht : typeOf v = some t)
    (hk : nilableKind t.kind = true) : reflectIsNil v = .ok (isNilValue v) := by
  unfold reflectIsNil
  rw [ht]
  cases t <;> simp [GoType.kind, nilableKind] at hk <;>
    cases v <;> simp [GoType.kind, isNilValue]

theorem reflectIsNil_not_nilable (v : Value) (t : GoType) (ht : typeOf v = some t)
    (hk : nilableKind t.kind = false) : ∃ p, reflectIsNil v = .error p := by
  unfold reflectIsNil
  rw [ht]
  cases t <;> simp [GoType.kind, nilableKind] at hk <;> exact ⟨_, rfl⟩

/-- C10: with a test context registered, on the absent value `IsNil` returns
true and `IsNotNil` returns false; on a value of a nilable kind `IsNil`
returns true exactly when the value is currently nil and `IsNotNil` returns
the negation; on a value of any other kind both panic and return nothing. -/
theorem isNil_isNotNil_by_kind (R : Runtime) (w : World) (tc : TestT)
    (hreg : w.currentT = some tc) (v : Value) :
    (v = .nil →
      IsNil R { actual := v } w = .ret true w ∧
      (IsNotNil R { actual := v } w).value = some false) ∧
    (∀ t, typeOf v = some t → nilableKind t.kind = true →
      (IsNil R { actual := v } w).value = some (isNilValue v) ∧
      (IsNotNil R { actual := v } w).value = some (!isNilValue v)) ∧
    (∀ t, typeOf v = some t → nilableKind t.kind = false →
      (∃ p, IsNil R { actual := v } w = .panic p w) ∧
      (∃ p, IsNotNil R { actual := v } w = .panic p w)) := by
  refine ⟨?_, ?_, ?_⟩
  · rintro rfl
    simp [IsNil, IsNotNil, failWith_registered _ w tc hreg, Res.value]
  · intro t ht hk
    have hn := reflectIsNil_nilable v t ht hk
    have hne : v ≠ .nil := by rintro rfl; simp [typeOf] at ht
    cases hb : isNilValue v <;> rw [hb] at hn <;>
      cases v <;>
      simp_all [IsNil, IsNotNil, failWith_registered _ w tc hreg, Res.value]
  · intro t ht hk
    obtain ⟨p, hp⟩ := reflectIsNil_not_nilable v t ht hk
    have hne : v ≠ .nil := by rintro rfl; simp [typeOf] at ht
    cases v <;> simp_all [IsNil, IsNotNil]

theorem isNil_isNotNil_by_kind_witness :
    (∃ p, IsNil (sampleRuntime false) { actual := .int 3 } sampleWorld = .panic p sampleWorld) ∧
    (∃ p, IsNotNil (sampleRuntime false) { actual := .int 3 } sampleWorld
      = .panic p sampleWorld) :=
  (isNil_isNotNil_by_kind (sampleRuntime false) sampleWorld { failures := [] } rfl (.int 3)).2.2
    .int rfl (by decide)

/-! ### `HasLen` -/

theorem reflectLen_lengthKind (v : Value) (t : GoType) (hwf : wellFormed v = true)
    (ht : typeOf v = some t) (hk : lengthKind t.kind = true) :
    reflectLen v = .ok (valueLength v) := by
  cases v <;> simp [typeOf] at ht
  case typedNil u =>
    subst ht
    cases u <;> simp [GoType.kind, lengthKind] at hk <;>
      simp [wellFormed] at hwf <;> simp [reflectLen, valueLength]
  case ptr addr elem =>
    split at ht <;> (simp at ht; subst ht; simp [GoType.kind, lengthKind] at hk)
  all_goals first
    | (subst ht; simp [GoType.kind, lengthKind] at hk; done)
    | simp [reflectLen, valueLength]


theorem typeOf_ptr (addr : Nat) (elem : Value) :
    ∃ u, typeOf (.ptr addr elem) = some (.ptr u) ∧
      (typeOf elem = some u ∨ (typeOf elem = none ∧ u = .iface)) := by
  cases h : typeOf elem with
  | none => exact ⟨.iface, by simp [typeOf, h], Or.inr ⟨rfl, rfl⟩⟩
  | some u => exact ⟨u, by simp [typeOf, h], Or.inl rfl⟩

theorem reflectLen_pointer_to_array (v : Value) (n : Nat) (e : GoType)
    (hwf : wellFormed v = true) (ht : typeOf v = some (.ptr (.array n e))) :
    reflectLen v = .ok n := by
  cases v <;> simp [typeOf] at ht
  case typedNil u => subst ht; rfl
  case ptr addr elem =>
    obtain ⟨u, hu, hel⟩ := typeOf_ptr addr elem
    have hue : u = .array n e := by
      have := hu.symm.trans (show typeOf (.ptr addr elem) = some (.ptr (.array n e)) by
        simp only [typeOf]; split <;> simp_all)
      simpa using this
    subst hue
    rcases hel with hel | ⟨_, hel⟩
    · cases elem <;> simp [typeOf] at hel
      case typedNil t => subst hel; simp [wellFormed] at hwf
      case ptr a2 e2 =>
        obtain ⟨u2, hu2, _⟩ := typeOf_ptr a2 e2
        simp [typeOf] at hu2
        split at hel <;> simp at hel
      case array elemT elems => simp [reflectLen, hel.1]
    · cases hel

theorem reflectLen_no_length (v : Value) (hwf : wellFormed v = true)
    (hk : ∀ t, typeOf v = some t → lengthKind t.kind = false ∧ ∀ n e, t ≠ .ptr (.array n e)) :
    ∃ p, reflectLen v = .error p := by
  cases v
  case typedNil u =>
    have h := hk u rfl
    cases u <;> simp [GoType.kind, lengthKind] at h <;> simp [wellFormed] at hwf
    · exact ⟨_, rfl⟩
    · rename_i elem
      cases elem <;> first | exact ⟨_, rfl⟩ | simp at h
  case ptr addr elem =>
    cases elem
    case array elemT elems =>
      have h := (hk _ rfl).2 elems.length elemT
      simp at h
    all_goals exact ⟨_, rfl⟩
  all_goals first
    | exact ⟨_, rfl⟩
    | (have h := (hk _ rfl).1; simp [GoType.kind, lengthKind] at h)

/-- C11 as stated fails: a pointer to an array is of kind `Pointer`, none of
the five kinds, and `Value.Len` gives it the length of the array, so `HasLen`
returns instead of panicking. -/
theorem hasLen_returns_on_pointer_to_array :
    typeOf sampleArrayPtr = some (.ptr (.array 3 .int)) ∧
    lengthKind (GoType.ptr (.array 3 .int)).kind = false ∧
    (HasLen { actual := sampleArrayPtr } 3 sampleWorld).value = some true ∧
    (HasLen { actual := sampleArrayPtr } 4 sampleWorld).value = some false := by
  decide

/-- C11, amended: with a test context registered, for every actual value of
kind array, slice, map, string or channel and every integer expected, `HasLen`
returns true if and only if the length of the value equals expected, so false
for every negative expected; for a pointer to an array it compares expected
with the length of the array; for every other value, the absent value
included, it panics and returns nothing. -/
theorem hasLen_by_kind (w : World) (tc : TestT) (hreg : w.currentT = some tc) (v : Value)
    (hwf : wellFormed v = true) (expected : Int) :
    (∀ t, typeOf v = some t → lengthKind t.kind = true →
      (HasLen { actual := v } expected w).value = some (decide (expected = valueLength v)) ∧
      (expected < 0 → (HasLen { actual := v } expected w).value = some false)) ∧
    (∀ n e, typeOf v = some (.ptr (.array n e)) →
      (HasLen { actual := v } expected w).value = some (decide (expected = n))) ∧
    ((∀ t, typeOf v = some t → lengthKind t.kind = false ∧ ∀ n e, t ≠ .ptr (.array n e)) →
      ∃ p, HasLen { actual := v } expected w = .panic p w) := by
  refine ⟨fun t ht hk => ?_, fun n e ht => ?_, fun hk => ?_⟩
  · have hl := reflectLen_lengthKind v t hwf ht hk
    have hval : (HasLen { actual := v } expected w).value
        = some (decide (expected = valueLength v)) := by
      by_cases he : expected = (valueLength v : Int) <;>
        simp [HasLen, hl, he, failWith_registered _ w tc hreg, Res.value]
    refine ⟨hval, fun hneg => ?_⟩
    rw [hval]
    simp only [Option.some.injEq, decide_eq_false_iff_not]
    omega
  · have hl := reflectLen_pointer_to_array v n e hwf ht
    by_cases he : expected = (n : Int) <;>
      simp [HasLen, hl, he, failWith_registered _ w tc hreg, Res.value]
  · obtain ⟨p, hp⟩ := reflectLen_no_length v hwf hk
    exact ⟨p, by simp [HasLen, hp]⟩

theorem hasLen_by_kind_witness :
    (HasLen { actual := .string "abc" } 3 sampleWorld).value
      = some (decide ((3 : Int) = valueLength (.string "abc"))) ∧
    ((3 : Int) < 0 → (HasLen { actual := .string "abc" } 3 sampleWorld).value = some false) :=
  (hasLen_by_kind sampleWorld { failures := [] } rfl (.string "abc") (by decide) 3).1
    .string rfl (by decide)

/-! ### `Expect`, `Fail`, `describe` and the derived assertions -/

/-- C13: without a registered context `Expect` and `Fail` panic with the
message that asks for `RegisterT` and leave the world as it was; with a
context `Expect` returns a chain that wraps exactly the given value and leaves
the world as it was, and `Fail` records exactly one failure, the formatted
message. -/
theorem expect_fail_need_context (sprintf : String → List Value → String) (w : World)
    (v : Value) (msg : String) (args : List Value) :
    (w.currentT = none →
      Expect v w = .panic (.msg "Did you forget to call RegisterT(t)?") w ∧
      Fail sprintf msg args w = .panic (.msg "Did you forget to call RegisterT(t)?") w) ∧
    (∀ t, w.currentT = some t →
      Expect v w = .ret { actual := v } w ∧
      Fail sprintf msg args w = .ret ()
        { w with currentT := some { failures := t.failures ++ [sprintf msg args] } }) := by
  refine ⟨fun h => ?_, fun t h => ?_⟩
  · simp [Expect, Fail, h]
  · simp [Expect, Fail, tError, h]

theorem expect_fail_need_context_witness :
    Expect (.int 1) unregisteredWorld
      = .panic (.msg "Did you forget to call RegisterT(t)?") unregisteredWorld ∧
    Fail sampleSprintf "boom" [] unregisteredWorld
      = .panic (.msg "Did you forget to call RegisterT(t)?") unregisteredWorld :=
  (expect_fail_need_context sampleSprintf unregisteredWorld (.int 1) "boom" []).1 rfl

theorem containsChars_iff_contiguous (sub : List Char) :
    ∀ s : List Char, containsChars sub s = true ↔ sub <:+: s := by
  intro s
  induction s with
  | nil =>
    simp [containsChars, List.isEmpty_iff]
  | cons c cs ih =>
    rw [containsChars, Bool.or_eq_true, ih, List.infix_cons_iff]
    simp [ List.isPrefixOf_iff_prefix]

/-- C14: with a test context registered, for every string actual and every
string substr, `ContainsString` returns true if and only if substr occurs as a
contiguous part of actual, so true for every actual when substr is empty, and
false otherwise; on an actual value that is no string it panics and returns
nothing. -/
theorem containsString_iff_substring (R : Runtime) (w : World) (tc : TestT)
    (hreg : w.currentT = some tc) (v : Value) (substr : String) :
    (∀ s, v = .string s →
      ((ContainsString R { actual := v } substr w).value = some true ↔
        ∃ pre post : String, s = pre ++ substr ++ post) ∧
      ((ContainsString R { actual := v } substr w).value = some false ↔
        ¬ ∃ pre post : String, s = pre ++ substr ++ post) ∧
      (substr = "" → (ContainsString R { actual := v } substr w).value = some true)) ∧
    ((∀ s, v ≠ .string s) → ∃ p, ContainsString R { actual := v } substr w = .panic p w) := by
  refine ⟨?_, fun hns => ?_⟩
  · rintro s rfl
    have hinf : (∃ pre post : String, s = pre ++ substr ++ post) ↔ substr.data <:+: s.data := by
      constructor
      · rintro ⟨pre, post, h⟩
        refine ⟨pre.data, post.data, ?_⟩
        rw [h]
        simp [String.data_append]
      · rintro ⟨p, q, h⟩
        refine ⟨⟨p⟩, ⟨q⟩, ?_⟩
        apply String.ext
        simp [String.data_append, h]
    have hval : (ContainsString R { actual := .string s } substr w).value
        = some (containsChars substr.data s.data) := by
      cases hc : containsChars substr.data s.data <;>
        simp [ContainsString, hc, failWith_registered _ w tc hreg, Res.value]
    rw [hval, hinf, ← containsChars_iff_contiguous]
    refine ⟨by simp, by simp, fun he => ?_⟩
    subst he
    have : containsChars "".data s.data = true := by
      rw [containsChars_iff_contiguous]
      exact ⟨[], s.data, by simp⟩
    rw [this]
  · cases v <;> first
      | exact ⟨_, rfl⟩
      | exact absurd rfl (hns _)

theorem containsString_iff_substring_witness :
    ((ContainsString (sampleRuntime false) { actual := .string "hello world" } "lo wo"
        sampleWorld).value = some true ↔
      ∃ pre post : String, "hello world" = pre ++ "lo wo" ++ post) ∧
    ((ContainsString (sampleRuntime false) { actual := .string "hello world" } "lo wo"
        sampleWorld).value = some false ↔
      ¬ ∃ pre post : String, "hello world" = pre ++ "lo wo" ++ post) ∧
    ("lo wo" = "" →
      (ContainsString (sampleRuntime false) { actual := .string "hello world" } "lo wo"
        sampleWorld).value = some true) :=
  (containsString_iff_substring (sampleRuntime false) sampleWorld { failures := [] } rfl
    (.string "hello world") "lo wo").1 "hello world" rfl

theorem deepEqual_bool_iff (b : Bool) (v : Value) :
    DeepEqual (.bool b) v = true ↔ v = .bool b := by
  cases v <;> simp [DeepEqual, deepValueEqual, typeOf]
  · exact eq_comm

theorem deepEqual_string_iff (s : String) (v : Value) :
    DeepEqual (.string s) v = true ↔ v = .string s := by
  cases v <;> simp [DeepEqual, deepValueEqual, typeOf]
  · exact eq_comm

theorem equals_value (R : Runtime) (w : World) (tc : TestT) (hreg : w.currentT = some tc)
    (v e : Value) : (Equals R { actual := v } e w).value = some (DeepEqual e v) := by
  cases hd : DeepEqual e v <;>
    simp [Equals, hd, failWith_registered _ w tc hreg, Res.value]

theorem notEquals_value (R : Runtime) (w : World) (tc : TestT) (hreg : w.currentT = some tc)
    (v e : Value) : (NotEquals R { actual := v } e w).value = some (!DeepEqual e v) := by
  cases hd : DeepEqual e v <;>
    simp [NotEquals, hd, failWith_registered _ w tc hreg, Res.value]

/-- C16: the four derived assertions are their `Equals` and `NotEquals`
definitions and, with a test context registered, `IsTrue` returns true exactly
on the boolean true, `IsFalse` exactly on the boolean false, `IsEmpty` exactly
on the empty string, and `IsNotEmpty` returns true exactly when `IsEmpty`
returns false, so on every value other than the empty string. -/
theorem derived_assertions (R : Runtime) (w : World) (tc : TestT)
    (hreg : w.currentT = some tc) (v : Value) :
    (IsTrue R { actual := v } w = Equals R { actual := v } (.bool true) w ∧
     IsFalse R { actual := v } w = Equals R { actual := v } (.bool false) w ∧
     IsEmpty R { actual := v } w = Equals R { actual := v } (.string "") w ∧
     IsNotEmpty R { actual := v } w = NotEquals R { actual := v } (.string "") w) ∧
    ((IsTrue R { actual := v } w).value = some true ↔ v = .bool true) ∧
    ((IsTrue R { actual := v } w).value = some false ↔ v ≠ .bool true) ∧
    ((IsFalse R { actual := v } w).value = some true ↔ v = .bool false) ∧
    ((IsFalse R { actual := v } w).value = some false ↔ v ≠ .bool false) ∧
    ((IsEmpty R { actual := v } w).value = some true ↔ v = .string "") ∧
    ((IsEmpty R { actual := v } w).value = some false ↔ v ≠ .string "") ∧
    ((IsNotEmpty R { actual := v } w).value = some true ↔
      (IsEmpty R { actual := v } w).value = some false) ∧
    ((∀ s, v ≠ .string s) → (IsNotEmpty R { actual := v } w).value = some true) := by
  have hT := equals_value R w tc hreg v (.bool true)
  have hF := equals_value R w tc hreg v (.bool false)
  have hE := equals_value R w tc hreg v (.string "")
  have hN := notEquals_value R w tc hreg v (.string "")
  have bT := deepEqual_bool_iff true v
  have bF := deepEqual_bool_iff false v
  have bE := deepEqual_string_iff "" v
  refine ⟨⟨rfl, rfl, rfl, rfl⟩, ?_, ?_, ?_, ?_, ?_, ?_, ?_, ?_⟩
  · rw [IsTrue, hT]; simpa using bT
  · rw [IsTrue, hT, Ne, ← bT]; simp
  · rw [IsFalse, hF]; simpa using bF
  · rw [IsFalse, hF, Ne, ← bF]; simp
  · rw [IsEmpty, hE]; simpa using bE
  · rw [IsEmpty, hE, Ne, ← bE]; simp
  · rw [IsNotEmpty, IsEmpty, hN, hE]; simp
  · intro hns
    rw [IsNotEmpty, hN]
    have : DeepEqual (.string "") v = false := by
      rw [Bool.eq_false_iff]
      intro h
      exact hns "" (bE.1 h)
    simp [this]

theorem derived_assertions_witness :
    (IsNotEmpty (sampleRuntime false) { actual := .int 0 } sampleWorld).value = some true :=
  (derived_assertions (sampleRuntime false) sampleWorld { failures := [] } rfl (.int 0)).2.2.2.2.2.2.2.2
    (by intro s h; cases h)

/-! ### `WithinTime` without a positive tolerance -/

theorem withinTime_outside (R : Runtime) (w : World) (tc : TestT) (hreg : w.currentT = some tc)
    (v : Value) (t other : Time) (diff : Int) (hv : wrapsTime v t)
    (ht : t.valid) (ho : other.valid)
    (hd : durationInRange diff) (hlo : instantInRange (other.nanos - diff))
    (hhi : instantInRange (other.nanos + diff)) (hout : ¬ withinOpenInterval t other diff) :
    WithinTime R { actual := v } other diff w = .ret false
      { currentT := some { failures := tc.failures ++ [withinTimeMessage R t other diff] },
        invoked := w.invoked } := by
  have hb := bounds_check t other diff ht ho hd hlo hhi
  rcases hv with hv | ⟨addr, hv⟩ <;> subst hv <;>
    simp only [WithinTime, hb] <;>
    simp [hout, failWith_registered _ w tc hreg, withinTimeMessage]

/-- C20: for well-formed times, a duration `diff <= 0`, and `other - diff` and
`other + diff` in the range of `time.Time`, with a test context registered,
`WithinTime(other, diff)` returns false and records exactly one failure,
whatever time the chain wraps; so also for the chain that wraps exactly
`other` with `diff = 0`. -/
theorem withinTime_needs_positive_diff (R : Runtime) (w : World) (tc : TestT)
    (hreg : w.currentT = some tc) (v : Value) (t other : Time) (diff : Int)
    (hv : wrapsTime v t) (ht : t.valid) (ho : other.valid) (hd : durationInRange diff)
    (hlo : instantInRange (other.nanos - diff)) (hhi : instantInRange (other.nanos + diff))
    (hnp : diff ≤ 0) :
    WithinTime R { actual := v } other diff w = .ret false
      { currentT := some { failures := tc.failures ++ [withinTimeMessage R t other diff] },
        invoked := w.invoked } ∧
    WithinTime R { actual := .time other } other 0 w = .ret false
      { currentT := some { failures := tc.failures ++ [withinTimeMessage R other other 0] },
        invoked := w.invoked } := by
  have hin : instantInRange (other.nanos - 0) ∧ instantInRange (other.nanos + 0) := by
    obtain ⟨h1, h2, h3⟩ := ho
    unfold instantInRange Time.nanos
    omega
  refine ⟨withinTime_outside R w tc hreg v t other diff hv ht ho hd hlo hhi ?_,
    withinTime_outside R w tc hreg _ other other 0 (Or.inl rfl) ho ho (by decide) hin.1 hin.2 ?_⟩
  · unfold withinOpenInterval; omega
  · unfold withinOpenInterval; omega

theorem withinTime_needs_positive_diff_witness :
    WithinTime (sampleRuntime false) { actual := .time sampleTime } sampleTime (-5) sampleWorld
      = .ret false
        { currentT := some { failures := [] ++
            [withinTimeMessage (sampleRuntime false) sampleTime sampleTime (-5)] },
          invoked := sampleWorld.invoked } ∧
    WithinTime (sampleRuntime false) { actual := .time sampleTime } sampleTime 0 sampleWorld
      = .ret false
        { currentT := some { failures := [] ++
            [withinTimeMessage (sampleRuntime false) sampleTime sampleTime 0] },
          invoked := sampleWorld.invoked } :=
  withinTime_needs_positive_diff (sampleRuntime false) sampleWorld { failures := [] } rfl
    (.time sampleTime) sampleTime sampleTime (-5) (Or.inl rfl) (by decide) (by decide)
    (by decide) (by decide) (by decide) (by decide)

/-! ### Symmetry of the structural comparison -/

theorem beq_swap {α : Type} [BEq α] [LawfulBEq α] (a b : α) : (a == b) = (b == a) := by
  rw [Bool.eq_iff_iff]
  simp only [beq_iff_eq]
  exact eq_comm

theorem floatEq_comm (a b : Nat) : floatEq a b = floatEq b a := by
  unfold floatEq
  rw [Bool.and_comm (!isNaN a) (!isNaN b), beq_swap (a % 2 ^ 64) (b % 2 ^ 64),
    Bool.and_comm (a % 2 ^ 63 == 0) (b % 2 ^ 63 == 0)]

theorem entries_length_toList : ∀ es : Entries, es.toList.length = es.length
  | .nil => rfl
  | .cons _ _ rest => by simp [Entries.toList, Entries.length, entries_length_toList rest]

theorem entries_hasKey_iff (k : Key) :
    ∀ es : Entries, es.hasKey k = true ↔ k ∈ es.toList.map Prod.fst
  | .nil => by simp [Entries.hasKey, Entries.toList]
  | .cons k2 _ rest => by
    simp only [Entries.hasKey, Entries.toList, List.map_cons, List.mem_cons, Bool.or_eq_true,
      beq_iff_eq, entries_hasKey_iff k rest]
    exact or_congr eq_comm Iff.rfl

theorem entries_distinct_iff :
    ∀ es : Entries, es.distinctKeys = true ↔ (es.toList.map Prod.fst).Nodup
  | .nil => by simp [Entries.distinctKeys, Entries.toList]
  | .cons k _ rest => by
    simp only [Entries.distinctKeys, Entries.toList, List.map_cons, List.nodup_cons,
      Bool.and_eq_true, Bool.not_eq_true', ← entries_distinct_iff rest]
    rw [← Bool.not_eq_true, entries_hasKey_iff]

theorem entries_lookup_mem (k : Key) (v : Value) :
    ∀ es : Entries, es.lookup k = some v → (k, v) ∈ es.toList
  | .nil => by simp [Entries.lookup]
  | .cons k2 v2 rest => by
    intro h
    simp only [Entries.lookup] at h
    split at h
    · rename_i hk
      cases h
      simp [Entries.toList, hk]
    · simp [Entries.toList, entries_lookup_mem k v rest h]

theorem entries_mem_lookup (k : Key) (v : Value) :
    ∀ es : Entries, es.distinctKeys = true → (k, v) ∈ es.toList → es.lookup k = some v
  | .nil => by simp [Entries.toList]
  | .cons k2 v2 rest => by
    intro hd h
    simp only [Entries.distinctKeys, Bool.and_eq_true, Bool.not_eq_true'] at hd
    simp only [Entries.toList, List.mem_cons, Prod.mk.injEq] at h
    rcases h with ⟨rfl, rfl⟩ | h
    · simp [Entries.lookup]
    · have hne : k2 ≠ k := by
        rintro rfl
        have : rest.hasKey k2 = true := by
          rw [entries_hasKey_iff]
          exact List.mem_map.2 ⟨(k2, v), h, rfl⟩
        rw [this] at hd
        exact absurd hd.1 (by simp)
      simp [Entries.lookup, hne, entries_mem_lookup k v rest hd.2 h]

theorem entries_key_mem (es : Entries) (k : Key) (h : k ∈ es.toList.map Prod.fst) :
    ∃ v, (k, v) ∈ es.toList := by
  obtain ⟨⟨k2, v⟩, hm, hk⟩ := List.mem_map.1 h
  simp only at hk
  subst hk
  exact ⟨v, hm⟩

theorem deepEntriesEqual_iff (e2 : Entries) :
    ∀ e1 : Entries, deepEntriesEqual e1 e2 = true ↔
      ∀ p ∈ e1.toList, ∃ v2, e2.lookup p.1 = some v2 ∧ deepValueEqual p.2 v2 = true
  | .nil => by simp [deepEntriesEqual, Entries.toList]
  | .cons k v rest => by
    simp only [deepEntriesEqual, Bool.and_eq_true, deepEntriesEqual_iff e2 rest,
      Entries.toList, List.forall_mem_cons]
    apply and_congr_left'
    cases h : e2.lookup k <;> simp

theorem keys_subset_swap (l1 l2 : List Key) (hn : l1.Nodup) (hs : l1 ⊆ l2)
    (hl : l1.length = l2.length) : l2 ⊆ l1 :=
  ((hn.subperm hs).perm_of_length_le (by omega)).symm.subset

theorem deepEntriesEqual_transfer (e1 e2 : Entries) (hd1 : e1.distinctKeys = true)
    (hd2 : e2.distinctKeys = true) (hl : e1.length = e2.length)
    (hsym : ∀ k v1 v2, (k, v1) ∈ e1.toList → (k, v2) ∈ e2.toList →
      deepValueEqual v1 v2 = true → deepValueEqual v2 v1 = true)
    (h : deepEntriesEqual e1 e2 = true) : deepEntriesEqual e2 e1 = true := by
  rw [deepEntriesEqual_iff] at h ⊢
  have hsub : e1.toList.map Prod.fst ⊆ e2.toList.map Prod.fst := by
    intro k hk
    obtain ⟨v, hv⟩ := entries_key_mem e1 k hk
    obtain ⟨v2, hv2, _⟩ := h (k, v) hv
    exact List.mem_map.2 ⟨(k, v2), entries_lookup_mem k v2 e2 hv2, rfl⟩
  have hsub2 := keys_subset_swap _ _ ((entries_distinct_iff e1).1 hd1) hsub
    (by simp [entries_length_toList, hl])
  rintro ⟨k2, v2⟩ hp
  have hk2 : k2 ∈ e1.toList.map Prod.fst := hsub2 (List.mem_map.2 ⟨(k2, v2), hp, rfl⟩)
  obtain ⟨v1, hv1⟩ := entries_key_mem e1 k2 hk2
  obtain ⟨v2b, hl2, heq⟩ := h (k2, v1) hv1
  have : e2.lookup k2 = some v2 := entries_mem_lookup k2 v2 e2 hd2 hp
  simp only at hl2 heq
  rw [this] at hl2
  cases hl2
  exact ⟨v1, entries_mem_lookup k2 v1 e1 hd1 hv1, hsym k2 v1 v2 hv1 hp heq⟩

theorem deepEntriesEqual_comm (e1 e2 : Entries) (hd1 : e1.distinctKeys = true)
    (hd2 : e2.distinctKeys = true) (hl : e1.length = e2.length)
    (hsym : ∀ k v1 v2, (k, v1) ∈ e1.toList → (k, v2) ∈ e2.toList →
      deepValueEqual v1 v2 = deepValueEqual v2 v1) :
    deepEntriesEqual e1 e2 = deepEntriesEqual e2 e1 := by
  rw [Bool.eq_iff_iff]
  constructor
  · exact deepEntriesEqual_transfer e1 e2 hd1 hd2 hl
      (fun k v1 v2 h1 h2 h => by rw [← hsym k v1 v2 h1 h2]; exact h)
  · exact deepEntriesEqual_transfer e2 e1 hd2 hd1 hl.symm
      (fun k v2 v1 h2 h1 h => by rw [hsym k v1 v2 h1 h2]; exact h)

theorem wellFormedEntries_mem :
    ∀ es : Entries, wellFormedEntries es = true → ∀ p ∈ es.toList, wellFormed p.2 = true
  | .nil => by simp [Entries.toList]
  | .cons k v rest => by
    intro h
    simp only [wellFormedEntries, Bool.and_eq_true] at h
    simp only [Entries.toList, List.forall_mem_cons]
    exact ⟨h.1, wellFormedEntries_mem rest h.2⟩

theorem typeOf_ptr_comm (a1 a2 : Nat) (e1 e2 : Value) :
    (typeOf (.ptr a1 e1) == typeOf (.ptr a2 e2)) = (typeOf (.ptr a2 e2) == typeOf (.ptr a1 e1)) :=
  beq_swap _ _

mutual
theorem deepValueEqual_comm : ∀ a b : Value, wellFormed a = true → wellFormed b = true →
    deepValueEqual a b = deepValueEqual b a
  | .nil, b, _, _ => by cases b <;> simp [deepValueEqual]
  | .bool x, b, _, _ => by cases b <;> simp [deepValueEqual, beq_swap x]
  | .int x, b, _, _ => by cases b <;> simp [deepValueEqual, beq_swap x]
  | .int64 x, b, _, _ => by cases b <;> simp [deepValueEqual, beq_swap x]
  | .float64 x, b, _, _ => by cases b <;> simp [deepValueEqual, floatEq_comm x]
  | .string x, b, _, _ => by cases b <;> simp [deepValueEqual, beq_swap x]
  | .time x, b, _, _ => by cases b <;> simp [deepValueEqual, beq_swap x]
  | .func _ _ _ _ _, b, _, _ => by cases b <;> simp [deepValueEqual]
  | .typedNil x, b, _, _ => by cases b <;> simp [deepValueEqual, beq_swap x]
  | .chan t x _, b, _, _ => by cases b <;> simp [deepValueEqual, beq_swap x, beq_swap t]
  | .ptr a1 e1, b, ha, hb => by
    cases b <;> try (simp [deepValueEqual]; done)
    rename_i a2 e2
    simp only [wellFormed] at ha hb
    simp only [deepValueEqual]
    rw [typeOf_ptr_comm a1 a2 e1 e2, beq_swap a1 a2, deepValueEqual_comm e1 e2 ha hb]
  | .slice t base es, b, ha, hb => by
    cases b <;> try (simp [deepValueEqual]; done)
    rename_i t2 base2 es2
    simp only [wellFormed] at ha hb
    simp only [deepValueEqual]
    rw [beq_swap t t2, beq_swap es.length es2.length, beq_swap base base2,
      deepValuesEqual_comm es es2 ha hb]
  | .array t es, b, ha, hb => by
    cases b <;> try (simp [deepValueEqual]; done)
    rename_i t2 es2
    simp only [wellFormed] at ha hb
    simp only [deepValueEqual]
    rw [beq_swap t t2, beq_swap es.length es2.length, deepValuesEqual_comm es es2 ha hb]
  | .struct n fs, b, ha, hb => by
    cases b <;> try (simp [deepValueEqual]; done)
    rename_i n2 fs2
    simp only [wellFormed] at ha hb
    simp only [deepValueEqual]
    rw [beq_swap n n2, deepValuesEqual_comm fs fs2 ha hb]
  | .map kt et id en, b, ha, hb => by
    cases b <;> try (simp [deepValueEqual]; done)
    rename_i kt2 et2 id2 en2
    simp only [wellFormed, Bool.and_eq_true] at ha hb
    simp only [deepValueEqual]
    rw [beq_swap kt kt2, beq_swap et et2, beq_swap en.length en2.length, beq_swap id id2]
    by_cases hl : en.length = en2.length
    · have hmem := wellFormedEntries_mem en2 hb.2
      rw [deepEntriesEqual_comm en en2 ha.1 hb.1 hl
        (fun k v1 v2 h1 h2 => deepEntries_pointwise en ha.2 (k, v1) h1 v2 (hmem (k, v2) h2))]
    · have hne : (en2.length == en.length) = false := by
        simp only [beq_eq_false_iff_ne, ne_eq]
        exact fun h => hl h.symm
      simp [hne]
theorem deepValuesEqual_comm : ∀ xs ys : Values, wellFormedAll xs = true →
    wellFormedAll ys = true → deepValuesEqual xs ys = deepValuesEqual ys xs
  | .nil, ys, _, _ => by cases ys <;> simp [deepValuesEqual]
  | .cons x xs, ys, hx, hy => by
    cases ys with
    | nil => simp [deepValuesEqual]
    | cons y ys2 =>
      simp only [wellFormedAll, Bool.and_eq_true] at hx hy
      simp only [deepValuesEqual]
      rw [deepValueEqual_comm x y hx.1 hy.1, deepValuesEqual_comm xs ys2 hx.2 hy.2]
theorem deepEntries_pointwise : ∀ es : Entries, wellFormedEntries es = true →
    ∀ p ∈ es.toList, ∀ b : Value, wellFormed b = true →
      deepValueEqual p.2 b = deepValueEqual b p.2
  | .nil, _ => by simp [Entries.toList]
  | .cons k v rest, h => by
    simp only [wellFormedEntries, Bool.and_eq_true] at h
    simp only [Entries.toList, List.forall_mem_cons]
    exact ⟨fun b hb => deepValueEqual_comm v b h.1 hb, deepEntries_pointwise rest h.2⟩
end

theorem deepEqual_comm (a b : Value) (ha : wellFormed a = true) (hb : wellFormed b = true) :
    DeepEqual a b = DeepEqual b a := by
  have h := deepValueEqual_comm a b ha hb
  have ht : (typeOf a == typeOf b) = (typeOf b == typeOf a) := beq_swap _ _
  cases a <;> cases b <;> simp only [DeepEqual] <;> first
    | rfl
    | rw [ht, h]

/-- C19: with a test context registered, for every pair of Go values `a` and
`b` (well-formed terms of the universe), `Expect(a).Equals(b)` returns the
same boolean as `Expect(b).Equals(a)`, and `Expect(a).NotEquals(b)` the same
as `Expect(b).NotEquals(a)`. -/
theorem equals_notEquals_symmetric (R : Runtime) (w : World) (tc : TestT)
    (hreg : w.currentT = some tc) (a b : Value) (ha : wellFormed a = true)
    (hb : wellFormed b = true) :
    (∃ x, (Equals R { actual := a } b w).value = some x ∧
      (Equals R { actual := b } a w).value = some x) ∧
    (∃ y, (NotEquals R { actual := a } b w).value = some y ∧
      (NotEquals R { actual := b } a w).value = some y) := by
  rw [equals_value R w tc hreg, equals_value R w tc hreg, notEquals_value R w tc hreg,
    notEquals_value R w tc hreg, deepEqual_comm a b ha hb]
  exact ⟨⟨_, rfl, rfl⟩, ⟨_, rfl, rfl⟩⟩

theorem equals_notEquals_symmetric_witness :
    (∃ x, (Equals (sampleRuntime false) { actual := sampleMap } sampleMapSwapped
        sampleWorld).value = some x ∧
      (Equals (sampleRuntime false) { actual := sampleMapSwapped } sampleMap
        sampleWorld).value = some x) ∧
    (∃ y, (NotEquals (sampleRuntime false) { actual := sampleMap } sampleMapSwapped
        sampleWorld).value = some y ∧
      (NotEquals (sampleRuntime false) { actual := sampleMapSwapped } sampleMap
        sampleWorld).value = some y) :=
  equals_notEquals_symmetric (sampleRuntime false) sampleWorld { failures := [] } rfl
    sampleMap sampleMapSwapped (by decide) (by decide)

/-! ### `RegisterT` and the environment -/

theorem lookup_filter_ne (k k2 : String) :
    ∀ env : Env, List.lookup k2 (env.filter (fun p => p.1 != k))
      = if k2 = k then none else List.lookup k2 env
  | [] => by simp
  | (a, b) :: rest => by
    have ih := lookup_filter_ne k k2 rest
    by_cases hak : a = k
    · subst hak
      by_cases h2 : k2 = a
      · subst h2
        simpa [List.filter] using ih
      · have : (k2 == a) = false := by simpa using h2
        simp [List.filter, List.lookup, ih, h2, this]
    · have hf : (a != k) = true := by simpa using hak
      by_cases h2 : k2 = a
      · subst h2
        simp [List.filter, hf, List.lookup, hak]
      · have : (k2 == a) = false := by simpa using h2
        simp [List.filter, hf, List.lookup, this, ih]

theorem lookupEnv_setenv (env : Env) (k v k2 : String) :
    lookupEnv (setenv env k v) k2 = if k2 = k then some v else lookupEnv env k2 := by
  unfold lookupEnv setenv
  by_cases h : k2 = k
  · subst h
    simp [List.lookup]
  · have : (k2 == k) = false := by simpa using h
    simp [List.lookup, this, lookup_filter_ne, h]

theorem lookupEnv_unsetenv (env : Env) (k k2 : String) :
    lookupEnv (unsetenv env k) k2 = if k2 = k then none else lookupEnv env k2 := by
  unfold lookupEnv unsetenv
  exact lookup_filter_ne k k2 env

theorem getenv_of_lookup (env : Env) (k v : String) (h : lookupEnv env k = some v) :
    getenv env k = v := by
  simp [getenv, h]

theorem copied_pairs (f : String → String) :
    ∀ (es m0 : Env), (∀ p ∈ m0, p.2 = f p.1) →
      ∀ p ∈ es.foldl (fun m e => setenv m e.1 (f e.1)) m0, p.2 = f p.1
  | [], m0, h => by simpa using h
  | e :: rest, m0, h => by
    simp only [List.foldl_cons]
    apply copied_pairs f rest
    intro p hp
    simp only [setenv, List.mem_cons, List.mem_filter] at hp
    rcases hp with rfl | ⟨hp, _⟩
    · rfl
    · exact h p hp

theorem copied_lookup (f : String → String) (k : String) :
    ∀ (es m0 : Env),
      lookupEnv (es.foldl (fun m e => setenv m e.1 (f e.1)) m0) k
        = if k ∈ es.map Prod.fst then some (f k) else lookupEnv m0 k
  | [], m0 => by simp
  | e :: rest, m0 => by
    simp only [List.foldl_cons, copied_lookup f k rest, lookupEnv_setenv, List.map_cons,
      List.mem_cons]
    by_cases h1 : k ∈ rest.map Prod.fst
    · simp [h1]
    · by_cases h2 : k = e.1
      · simp [h1, h2]
      · simp [h1, h2]

theorem restored_lookup (f : String → String) (k : String) :
    ∀ (m env : Env), (∀ p ∈ m, p.2 = f p.1) →
      lookupEnv (m.foldl (fun env e => setenv env e.1 e.2) env) k
        = if (lookupEnv m k).isSome then some (f k) else lookupEnv env k
  | [], env, _ => by simp [lookupEnv]
  | (k1, v1) :: rest, env, h => by
    have hv : v1 = f k1 := h (k1, v1) (List.mem_cons_self _ _)
    have ih := restored_lookup f k rest (setenv env k1 v1)
      (fun p hp => h p (List.mem_cons_of_mem _ hp))
    simp only [List.foldl_cons, ih, lookupEnv_setenv]
    by_cases hk : k = k1
    · subst hk
      simp [lookupEnv, List.lookup, hv]
    · have : (k == k1) = false := by simpa using hk
      simp only [lookupEnv, List.lookup, this, hk, if_false]

theorem lookup_mem_some (k : String) :
    ∀ env : Env, k ∈ env.map Prod.fst → ∃ v, lookupEnv env k = some v
  | [], h => by simp at h
  | (a, b) :: rest, h => by
    by_cases hk : k = a
    · exact ⟨b, by simp [lookupEnv, List.lookup, hk]⟩
    · have : (k == a) = false := by simpa using hk
      simp only [List.map_cons, List.mem_cons, hk, false_or] at h
      obtain ⟨v, hv⟩ := lookup_mem_some k rest h
      exact ⟨v, by simpa [lookupEnv, List.lookup, this] using hv⟩

theorem lookup_some_mem (k v : String) :
    ∀ env : Env, lookupEnv env k = some v → k ∈ env.map Prod.fst
  | [], h => by simp [lookupEnv] at h
  | (a, b) :: rest, h => by
    by_cases hk : k = a
    · simp [hk]
    · have : (k == a) = false := by simpa using hk
      simp only [lookupEnv, List.lookup, this] at h
      simp [lookup_some_mem k v rest h]

theorem registerT_first (p0 : Process) (h0 : p0.world.currentT = none) (t0 : TestT) :
    ∃ S : Env, (RegisterT (some t0) p0).envVariables = some S ∧
      (RegisterT (some t0) p0).world.currentT = some t0 ∧
      (∀ p ∈ S, p.2 = getenv p0.environ p.1) ∧
      (∀ k v, lookupEnv p0.environ k = some v → lookupEnv S k = some v) ∧
      (∀ k, lookupEnv p0.environ k = none → lookupEnv S k = none) ∧
      (∀ k, lookupEnv (RegisterT (some t0) p0).environ k = lookupEnv p0.environ k) := by
  have hp := copied_pairs (getenv p0.environ) p0.environ [] (by simp)
  have hl := fun k => copied_lookup (getenv p0.environ) k p0.environ []
  refine ⟨_, by simp [RegisterT, h0, copyEnv, restartEnv], by simp [RegisterT, h0, copyEnv, restartEnv],
    hp, fun k v hkv => ?_, fun k hk => ?_, fun k => ?_⟩
  · rw [hl, if_pos (lookup_some_mem k v _ hkv), getenv_of_lookup _ _ _ hkv]
  · have hnot : k ∉ p0.environ.map Prod.fst := by
      intro hmem
      obtain ⟨v, hv⟩ := lookup_mem_some k _ hmem
      rw [hk] at hv
      cases hv
    rw [hl, if_neg hnot]
    rfl
  · simp only [RegisterT, h0, copyEnv, restartEnv, Option.isNone_none, if_true]
    rw [restored_lookup (getenv p0.environ) k _ _ hp, hl]
    by_cases hk : k ∈ p0.environ.map Prod.fst
    · obtain ⟨v, hv⟩ := lookup_mem_some k _ hk
      simp [hk, hv, getenv]
    · simp [hk, lookupEnv]

theorem registerT_again (p : Process) (S : Env) (tc t : TestT)
    (hc : p.world.currentT = some tc) (hS : p.envVariables = some S) :
    (RegisterT (some t) p).envVariables = some S ∧
    (RegisterT (some t) p).world.currentT = some t ∧
    (RegisterT (some t) p).environ = S.foldl (fun env e => setenv env e.1 e.2) p.environ := by
  simp [RegisterT, hc, restartEnv, hS]

theorem run_keeps_copy (S : Env) :
    ∀ (acts : List EnvAction) (p : Process), acts.all EnvAction.keepsContext = true →
      (∃ tc, p.world.currentT = some tc) → p.envVariables = some S →
      (∃ tc, (p.run acts).world.currentT = some tc) ∧ (p.run acts).envVariables = some S
  | [], p, _, hc, hS => ⟨hc, hS⟩
  | a :: rest, p, hk, hc, hS => by
    simp only [List.all_cons, Bool.and_eq_true] at hk
    obtain ⟨tc, hc⟩ := hc
    have hstep : (∃ tc2, (p.step a).world.currentT = some tc2) ∧
        (p.step a).envVariables = some S := by
      cases a with
      | register t =>
        cases t with
        | none => simp [EnvAction.keepsContext] at hk
        | some t =>
          have h := registerT_again p S tc t hc hS
          exact ⟨⟨t, h.2.1⟩, h.1⟩
      | setenv k v => exact ⟨⟨tc, hc⟩, hS⟩
      | unsetenv k => exact ⟨⟨tc, hc⟩, hS⟩
    exact run_keeps_copy S rest (p.step a) hk.2 hstep.1 hstep.2

/-- C12 as stated fails: a variable added after the first registration is
still set after the next registration, so the environment is not the one of
the first registration; and after a first registration of a nil context the
next registration takes a new copy, so a variable changed in between keeps
its new value. -/
theorem registerT_keeps_added_variable :
    lookupEnv (RegisterT (some { failures := [] }) (freshProcess sampleEnv)).environ "EXTRA"
      = none ∧
    lookupEnv ((freshProcess sampleEnv).run
        [.register (some { failures := [] }), .setenv "EXTRA" "1",
          .register (some { failures := [] })]).environ "EXTRA"
      = some "1" ∧
    lookupEnv (RegisterT none (freshProcess sampleEnv)).environ "HOME" = some "/root" ∧
    lookupEnv ((freshProcess sampleEnv).run
        [.register none, .setenv "HOME" "/tmp",
          .register (some { failures := [] })]).environ "HOME"
      = some "/tmp" := by
  decide

/-- C12, amended: when every `RegisterT` call, the first one included, is
given a non-nil context: the first call of a process leaves every variable as
it is and takes the copy of the environment; after every later call, whatever
mutations of the environment and registrations came in between, every
variable that was set at the first call has the value it had then, every
variable that was not set at the first call is as the mutations left it (a
variable added since is not removed), and the copy is still the one of the
first call. -/
theorem registerT_restores_first_values (p0 : Process) (h0 : p0.world.currentT = none)
    (t0 tN : TestT) (acts : List EnvAction)
    (hacts : acts.all EnvAction.keepsContext = true) :
    (∀ k, lookupEnv (RegisterT (some t0) p0).environ k = lookupEnv p0.environ k) ∧
    (∀ k v, lookupEnv p0.environ k = some v →
      lookupEnv (RegisterT (some tN) ((RegisterT (some t0) p0).run acts)).environ k = some v) ∧
    (∀ k, lookupEnv p0.environ k = none →
      lookupEnv (RegisterT (some tN) ((RegisterT (some t0) p0).run acts)).environ k
        = lookupEnv ((RegisterT (some t0) p0).run acts).environ k) ∧
    ((RegisterT (some t0) p0).run acts).envVariables = (RegisterT (some t0) p0).envVariables ∧
    (RegisterT (some tN) ((RegisterT (some t0) p0).run acts)).envVariables
      = (RegisterT (some t0) p0).envVariables := by
  obtain ⟨S, hS, hc, hpairs, hin, hout, hsame⟩ := registerT_first p0 h0 t0
  obtain ⟨⟨tc, hrc⟩, hrS⟩ := run_keeps_copy S acts _ hacts ⟨t0, hc⟩ hS
  obtain ⟨hN1, _, hN3⟩ := registerT_again _ S tc tN hrc hrS
  refine ⟨hsame, fun k v hkv => ?_, fun k hk => ?_, by rw [hrS, hS], by rw [hN1, hS]⟩
  · rw [hN3, restored_lookup (getenv p0.environ) k S _ hpairs, hin k v hkv]
    simp [getenv, hkv]
  · rw [hN3, restored_lookup (getenv p0.environ) k S _ hpairs, hout k hk]
    simp

theorem registerT_restores_first_values_witness :
    lookupEnv (RegisterT (some { failures := ["x"] })
      ((RegisterT (some { failures := [] }) (freshProcess sampleEnv)).run
        [.setenv "HOME" "/tmp", .unsetenv "HOME", .setenv "EXTRA" "1",
          .register (some { failures := [] }), .setenv "HOME" "/home"])).environ "HOME"
      = some "/root" :=
  (registerT_restores_first_values (freshProcess sampleEnv) rfl { failures := [] }
    { failures := ["x"] }
    [.setenv "HOME" "/tmp", .unsetenv "HOME", .setenv "EXTRA" "1",
      .register (some { failures := [] }), .setenv "HOME" "/home"] (by decide)).2.1
    "HOME" "/root" (by decide)

/-! ### The number of invocations of `EventuallyEquals` -/

theorem loop_deadline (R : Runtime) (a : AnyAssertions) (expected : Value)
    (calls : Nat → CallOutcome) (sel : Nat → SelectEvent) (w : World) (tc : TestT)
    (n fuel : Nat) (hreg : w.currentT = some tc) (hf : zeroArgCallable a.actual = true)
    (hmiss : ∀ j, j ≤ n → pollResult expected (calls j) = some false)
    (htick : ∀ j, j < n → sel j = .tick) (hdone : sel n = .done) (hfuel : n < fuel) :
    EventuallyEquals R a expected calls sel fuel w
      = some (.ret false
          { currentT := some { failures := tc.failures ++
              ["EventuallyEquals assertion failed. \n Expected: \n\t\t " ++
                describe R expected ++ " \n Actual: \n\t\t " ++ describe R a.actual] },
            invoked := w.invoked + (n + 1) }) := by
  obtain ⟨hm, hc⟩ := callable_call a.actual hf
  obtain ⟨v, rest, hv, hne⟩ := pollResult_some _ _ _ (hmiss n (Nat.le_refl n))
  obtain ⟨m, rfl⟩ : ∃ m, fuel = m + 1 + n := ⟨fuel - 1 - n, by omega⟩
  unfold EventuallyEquals
  rw [hm]
  simp only []
  rw [loop_skips_misses R a expected calls sel hf n (m + 1) 0 w
    (fun j hj => by simpa using hmiss j (by omega)) (fun j hj => by simpa using htick j hj)]
  rw [Nat.zero_add]
  simp [EventuallyEquals.loop, hc, hv, hne, hdone, failWith, tError, hreg, Nat.add_assoc]

theorem failWith_invoked (msg : String) (w : World) :
    (failWith msg w).world.invoked = w.invoked := by
  unfold failWith tError
  cases w.currentT <;> rfl

theorem loop_leaves_at (R : Runtime) (a : AnyAssertions) (expected : Value)
    (calls : Nat → CallOutcome) (sel : Nat → SelectEvent)
    (hf : zeroArgCallable a.actual = true) :
    ∀ (fuel i : Nat) (w : World) (r : Res Bool),
      EventuallyEquals.loop R a expected calls sel fuel i w = some r →
      ∃ n, n < fuel ∧
        (∀ j, j < n → pollResult expected (calls (i + j)) = some false ∧ sel (i + j) = .tick) ∧
        (pollResult expected (calls (i + n)) ≠ some false ∨ sel (i + n) = .done) ∧
        r.world.invoked = w.invoked + (1 + n) := by
  obtain ⟨_, hc⟩ := callable_call a.actual hf
  intro fuel
  induction fuel with
  | zero => intro i w r h; simp [EventuallyEquals.loop] at h
  | succ m ih =>
    intro i w r h
    cases hp : pollResult expected (calls i) with
    | none =>
      refine ⟨0, by omega, by simp, Or.inl (by simp [hp]), ?_⟩
      cases hci : calls i with
      | panics p =>
        simp [EventuallyEquals.loop, hc, hci] at h
        subst h
        simp [Res.world]
      | returns vals =>
        cases vals with
        | nil =>
          simp [EventuallyEquals.loop, hc, hci] at h
          subst h
          simp [Res.world]
        | cons v rest => simp [pollResult, hci] at hp
    | some b =>
      obtain ⟨v, rest, hv, hb⟩ := pollResult_some _ _ _ hp
      cases b with
      | true =>
        refine ⟨0, by omega, by simp, Or.inl (by simp [hp]), ?_⟩
        simp [EventuallyEquals.loop, hc, hv, hb] at h
        subst h
        simp [Res.world]
      | false =>
        cases hs : sel i with
        | done =>
          refine ⟨0, by omega, by simp, Or.inr (by simpa using hs), ?_⟩
          simp only [EventuallyEquals.loop, hc, hv, hb, hs] at h
          simp only [Bool.false_eq_true, if_false, Option.some.injEq] at h
          subst h
          rw [failWith_invoked]
        | tick =>
          simp only [EventuallyEquals.loop, hc, hv, hb, hs] at h
          simp only [Bool.false_eq_true, if_false] at h
          obtain ⟨n, hn, hpre, hlast, hinv⟩ := ih (i + 1) _ r h
          refine ⟨n + 1, by omega, fun j hj => ?_, ?_, ?_⟩
          · cases j with
            | zero => exact ⟨by simpa using hp, by simpa using hs⟩
            | succ j =>
              have := hpre j (by omega)
              rwa [show i + 1 + j = i + (j + 1) by omega] at this
          · rwa [show i + 1 + n = i + (n + 1) by omega] at hlast
          · rw [hinv]
            simp only []
            omega

theorem instantSelect_done_at_300 (start : Nat) (tie : Nat → SelectEvent) :
    instantSelect start tie 300 = .done := by
  unfold instantSelect pollInterval pollTimeout second millisecond
  rw [if_neg (by omega), if_pos (by omega)]

/-- C17: for a zero-argument callable, poll number `k` of `EventuallyEquals`
is entered after `k` ticks with `k` invocations made, and its invocation,
which comes before its select, makes them `1 + k`; a run that is left after
`n` ticks has made `1 + n` invocations. The interval of the ticker is the timeout divided by 300
(30 seconds and 100 milliseconds), so for a callable that never matches and
returns at once the run returns false after at most 301 invocations. -/
theorem eventuallyEquals_invocation_count (R : Runtime) (a : AnyAssertions)
    (expected : Value) (calls : Nat → CallOutcome) (w : World)
    (hf : zeroArgCallable a.actual = true) :
    (∀ (sel : Nat → SelectEvent) (k fuel : Nat),
      (∀ j, j < k → pollResult expected (calls j) = some false ∧ sel j = .tick) →
      EventuallyEquals R a expected calls sel (fuel + k) w
        = EventuallyEquals.loop R a expected calls sel fuel k
            { w with invoked := w.invoked + k } ∧
      reflectCall a.actual (calls k) { w with invoked := w.invoked + k }
        = (calls k, { w with invoked := w.invoked + (1 + k) })) ∧
    (∀ (sel : Nat → SelectEvent) (fuel : Nat) (r : Res Bool),
      EventuallyEquals R a expected calls sel fuel w = some r →
      ∃ n, n < fuel ∧
        (∀ j, j < n → pollResult expected (calls j) = some false ∧ sel j = .tick) ∧
        (pollResult expected (calls n) ≠ some false ∨ sel n = .done) ∧
        r.world.invoked = w.invoked + (1 + n)) ∧
    (pollTimeout = 30 * 1000000000 ∧ pollInterval = 100 * 1000000 ∧
      pollTimeout / 300 = pollInterval ∧ pollInterval * 300 = pollTimeout) ∧
    (∀ (tc : TestT) (start : Nat) (tie : Nat → SelectEvent) (fuel : Nat),
      w.currentT = some tc → (∀ j, pollResult expected (calls j) = some false) →
      301 ≤ fuel →
      ∃ n, n ≤ 300 ∧ ∃ msg,
        EventuallyEquals R a expected calls (instantSelect start tie) fuel w
          = some (.ret false
              { currentT := some { failures := tc.failures ++ [msg] },
                invoked := w.invoked + (n + 1) })) := by
  obtain ⟨hm, hc⟩ := callable_call a.actual hf
  refine ⟨fun sel k fuel hpre => ?_, fun sel fuel r h => ?_, by decide, ?_⟩
  · refine ⟨?_, ?_⟩
    · unfold EventuallyEquals
      rw [hm]
      simp only []
      rw [loop_skips_misses R a expected calls sel hf k fuel 0 w
        (fun j hj => by simpa using (hpre j hj).1) (fun j hj => by simpa using (hpre j hj).2)]
      rw [Nat.zero_add]
    · rw [hc]
      simp only [Prod.mk.injEq, World.mk.injEq, true_and]
      omega
  · unfold EventuallyEquals at h
    rw [hm] at h
    simp only [] at h
    obtain ⟨n, hn, hpre, hlast, hinv⟩ := loop_leaves_at R a expected calls sel hf fuel 0 w r h
    refine ⟨n, hn, fun j hj => ?_, ?_, hinv⟩
    · simpa using hpre j hj
    · simpa using hlast
  · intro tc start tie fuel hreg hnever hfuel
    have hex : ∃ i, instantSelect start tie i = .done := ⟨300, instantSelect_done_at_300 start tie⟩
    have hle : Nat.find hex ≤ 300 := Nat.find_min' hex (instantSelect_done_at_300 start tie)
    refine ⟨Nat.find hex, hle, _, loop_deadline R a expected calls (instantSelect start tie) w tc
      (Nat.find hex) fuel hreg hf (fun j _ => hnever j) (fun j hj => ?_) (Nat.find_spec hex)
      (by omega)⟩
    have hnot := Nat.find_min hex hj
    cases hs : instantSelect start tie j with
    | done => exact absurd hs hnot
    | tick => rfl

theorem eventuallyEquals_invocation_count_witness :
    ∃ n, n ≤ 300 ∧ ∃ msg,
      EventuallyEquals (sampleRuntime false) { actual := sampleFunc } (.int 1) constantCalls
          (instantSelect 0 (fun _ => .tick)) 301 sampleWorld
        = some (.ret false
            { currentT := some { failures := [] ++ [msg] },
              invoked := sampleWorld.invoked + (n + 1) }) :=
  (eventuallyEquals_invocation_count (sampleRuntime false) { actual := sampleFunc } (.int 1)
    constantCalls sampleWorld (by decide)).2.2.2 { failures := [] } 0 (fun _ => .tick) 301 rfl
    (fun _ => rfl) (by omega)

/-! ### The receiver of a chain operation -/

theorem fail_self (msg : String) (f : Frame) : (Frame.fail msg f).frame.self = f.self := by
  unfold Frame.fail
  split <;> rfl

theorem fail_res (msg : String) (f : Frame) : (Frame.fail msg f).res = failWith msg f.world := by
  unfold Frame.fail failWith
  split <;> simp_all [Exit.res]

theorem equals_self (R : Runtime) (e : Value) (f : Frame) :
    (Method.Equals R e f).frame.self = f.self ∧
    (Method.Equals R e f).res = Equals R f.self e f.world := by
  unfold Method.Equals Equals
  split
  · exact ⟨rfl, rfl⟩
  · exact ⟨fail_self _ f, fail_res _ f⟩

theorem notEquals_self (R : Runtime) (e : Value) (f : Frame) :
    (Method.NotEquals R e f).frame.self = f.self ∧
    (Method.NotEquals R e f).res = NotEquals R f.self e f.world := by
  unfold Method.NotEquals NotEquals
  split
  · exact ⟨rfl, rfl⟩
  · exact ⟨fail_self _ f, fail_res _ f⟩

theorem containsString_self (R : Runtime) (s : String) (f : Frame) :
    (Method.ContainsString R s f).frame.self = f.self ∧
    (Method.ContainsString R s f).res = ContainsString R f.self s f.world := by
  unfold Method.ContainsString ContainsString
  split
  · split
    · exact ⟨rfl, rfl⟩
    · exact ⟨fail_self _ f, fail_res _ f⟩
  · exact ⟨rfl, rfl⟩

theorem isNotNil_self (R : Runtime) (f : Frame) :
    (Method.IsNotNil R f).frame.self = f.self ∧
    (Method.IsNotNil R f).res = IsNotNil R f.self f.world := by
  unfold Method.IsNotNil IsNotNil
  split
  · exact ⟨fail_self _ f, fail_res _ f⟩
  · split
    · exact ⟨rfl, rfl⟩
    · split
      · exact ⟨rfl, rfl⟩
      · exact ⟨fail_self _ f, fail_res _ f⟩

theorem isNil_self (R : Runtime) (f : Frame) :
    (Method.IsNil R f).frame.self = f.self ∧
    (Method.IsNil R f).res = IsNil R f.self f.world := by
  unfold Method.IsNil IsNil
  split
  · exact ⟨rfl, rfl⟩
  · split
    · exact ⟨rfl, rfl⟩
    · split
      · exact ⟨rfl, rfl⟩
      · exact ⟨fail_self _ f, fail_res _ f⟩

theorem hasLen_self (n : Int) (f : Frame) :
    (Method.HasLen n f).frame.self = f.self ∧
    (Method.HasLen n f).res = HasLen f.self n f.world := by
  unfold Method.HasLen HasLen
  split
  · exact ⟨rfl, rfl⟩
  · split
    · exact ⟨rfl, rfl⟩
    · exact ⟨fail_self _ f, fail_res _ f⟩

theorem panics_self (R : Runtime) (body : CallOutcome) (f : Frame) :
    (Method.Panics R body f).frame.self = f.self ∧
    (Method.Panics R body f).res = Panics R f.self body f.world := by
  unfold Method.Panics Panics
  split
  · exact ⟨rfl, rfl⟩
  · split
    · exact ⟨rfl, rfl⟩
    · split
      · exact ⟨rfl, rfl⟩
      · exact ⟨rfl, rfl⟩

theorem withinTime_self (R : Runtime) (other : Time) (diff : Int) (f : Frame) :
    (Method.WithinTime R other diff f).frame.self = f.self ∧
    (Method.WithinTime R other diff f).res = WithinTime R f.self other diff f.world := by
  unfold Method.WithinTime WithinTime
  split
  · exact ⟨rfl, rfl⟩
  · simp only []
    split
    · exact ⟨rfl, rfl⟩
    · exact ⟨fail_self _ f, fail_res _ f⟩
  · simp only []
    split
    · exact ⟨rfl, rfl⟩
    · exact ⟨fail_self _ f, fail_res _ f⟩
  · exact ⟨rfl, rfl⟩

theorem loop_self (R : Runtime) (expected : Value) (calls : Nat → CallOutcome)
    (sel : Nat → SelectEvent) :
    ∀ (fuel i : Nat) (f : Frame),
      (∀ e, Method.EventuallyEquals.loop R expected calls sel fuel i f = some e →
        e.frame.self = f.self) ∧
      (Method.EventuallyEquals.loop R expected calls sel fuel i f).map Exit.res
        = EventuallyEquals.loop R f.self expected calls sel fuel i f.world := by
  intro fuel
  induction fuel with
  | zero => intro i f; simp [Method.EventuallyEquals.loop, EventuallyEquals.loop]
  | succ n ih =>
    intro i f
    unfold Method.EventuallyEquals.loop EventuallyEquals.loop
    split
    · exact ⟨fun e he => by cases he; rfl, rfl⟩
    · exact ⟨fun e he => by cases he; rfl, rfl⟩
    · rename_i v rest w1 heq
      split
      · exact ⟨fun e he => by cases he; rfl, rfl⟩
      · split
        · refine ⟨fun e he => ?_, ?_⟩
          · cases he
            exact fail_self _ _
          · simp only [Option.map_some', fail_res]
        · exact ih (i + 1) { world := w1, self := f.self }

theorem eventuallyEquals_self (R : Runtime) (expected : Value) (calls : Nat → CallOutcome)
    (sel : Nat → SelectEvent) (fuel : Nat) (f : Frame) :
    (∀ e, Method.EventuallyEquals R expected calls sel fuel f = some e →
      e.frame.self = f.self) ∧
    (Method.EventuallyEquals R expected calls sel fuel f).map Exit.res
      = EventuallyEquals R f.self expected calls sel fuel f.world := by
  unfold Method.EventuallyEquals EventuallyEquals
  split
  · exact ⟨fun e he => by cases he; rfl, rfl⟩
  · exact loop_self R expected calls sel fuel 0 f

theorem exec_self (R : Runtime) (f : Frame) (op : Op) :
    (∀ e, op.exec R f = some e → e.frame.self = f.self) ∧
    (op.exec R f).map Exit.res = op.run R f.self f.world := by
  cases op with
  | equals e =>
    exact ⟨fun x hx => by cases hx; exact (equals_self R e f).1,
      congrArg some (equals_self R e f).2⟩
  | notEquals e =>
    exact ⟨fun x hx => by cases hx; exact (notEquals_self R e f).1,
      congrArg some (notEquals_self R e f).2⟩
  | containsString s =>
    exact ⟨fun x hx => by cases hx; exact (containsString_self R s f).1,
      congrArg some (containsString_self R s f).2⟩
  | isTrue =>
    exact ⟨fun x hx => by cases hx; exact (equals_self R _ f).1,
      congrArg some (equals_self R _ f).2⟩
  | isFalse =>
    exact ⟨fun x hx => by cases hx; exact (equals_self R _ f).1,
      congrArg some (equals_self R _ f).2⟩
  | isEmpty =>
    exact ⟨fun x hx => by cases hx; exact (equals_self R _ f).1,
      congrArg some (equals_self R _ f).2⟩
  | isNotEmpty =>
    exact ⟨fun x hx => by cases hx; exact (notEquals_self R _ f).1,
      congrArg some (notEquals_self R _ f).2⟩
  | isNotNil =>
    exact ⟨fun x hx => by cases hx; exact (isNotNil_self R f).1,
      congrArg some (isNotNil_self R f).2⟩
  | isNil =>
    exact ⟨fun x hx => by cases hx; exact (isNil_self R f).1,
      congrArg some (isNil_self R f).2⟩
  | hasLen n =>
    exact ⟨fun x hx => by cases hx; exact (hasLen_self n f).1,
      congrArg some (hasLen_self n f).2⟩
  | panics body =>
    exact ⟨fun x hx => by cases hx; exact (panics_self R body f).1,
      congrArg some (panics_self R body f).2⟩
  | eventuallyEquals e calls sel fuel => exact eventuallyEquals_self R e calls sel fuel f
  | withinTime other diff =>
    exact ⟨fun x hx => by cases hx; exact (withinTime_self R other diff f).1,
      congrArg some (withinTime_self R other diff f).2⟩

/-- C18: no chain operation changes the chain it is called on: for each of the
thirteen methods, run on the struct behind its receiver, the struct behind the
receiver when the method is left, by a return or by a panic, is the one from
before the call, so its actual value is the same and a second operation on
the chain runs on the same struct; the outcome is the one of the operation
given the actual value of the chain. -/
theorem receiver_unchanged (R : Runtime) (op op2 : Op) (f : Frame) (e : Exit Bool)
    (h : op.exec R f = some e) :
    e.frame.self = f.self ∧
    e.frame.self.actual = f.self.actual ∧
    op2.exec R e.frame = op2.exec R { world := e.frame.world, self := f.self } ∧
    (op.exec R f).map Exit.res = op.run R f.self f.world := by
  have hs := (exec_self R f op).1 e h
  refine ⟨hs, by rw [hs], ?_, (exec_self R f op).2⟩
  rw [← hs]

theorem receiver_unchanged_witness :
    (Method.Equals (sampleRuntime false) (.int 2) sampleFrame).frame.self = sampleFrame.self ∧
    (Method.Equals (sampleRuntime false) (.int 2) sampleFrame).frame.self.actual
      = sampleFrame.self.actual ∧
    Op.isTrue.exec (sampleRuntime false)
        (Method.Equals (sampleRuntime false) (.int 2) sampleFrame).frame
      = Op.isTrue.exec (sampleRuntime false)
        { world := (Method.Equals (sampleRuntime false) (.int 2) sampleFrame).frame.world,
          self := sampleFrame.self } ∧
    ((Op.equals (.int 2)).exec (sampleRuntime false) sampleFrame).map Exit.res
      = (Op.equals (.int 2)).run (sampleRuntime false) sampleFrame.self sampleFrame.world :=
  receiver_unchanged (sampleRuntime false) (.equals (.int 2)) .isTrue sampleFrame
    (Method.Equals (sampleRuntime false) (.int 2) sampleFrame) rfl

/-! ### `describe` never panics -/

theorem sprintf_describe (R : Runtime) (t : GoType) (v : Value) :
    sprintfChars R "[%s] %v".data [.type t, .value v]
      = "[" ++ typeString t ++ "] " ++ R.fmtV v := by
  have hd : "[%s] %v".data = ['[', '%', 's', ']', ' ', '%', 'v'] := by decide
  have h2 : ("] " : String) = "]" ++ " " := by decide
  rw [hd, h2]
  simp [sprintfChars, fmtOperand, fmtExtras, String.append_assoc]
  rfl

theorem typeOf_none_iff (v : Value) : typeOf v = none ↔ v = .nil := by
  constructor
  · intro h
    cases v <;> simp [typeOf] at h
    · rfl
    · split at h <;> simp at h
  · rintro rfl
    rfl

theorem describeRun_ok (R : Runtime) (v : Value) : describeRun R v = .ok (describe R v) := by
  cases ht : typeOf v with
  | none =>
    rw [(typeOf_none_iff v).1 ht]
    rfl
  | some t =>
    have hne : v ≠ .nil := fun h => by rw [(typeOf_none_iff v).2 h] at ht; cases ht
    have hrun : describeRun R v
        = .ok (sprintfChars R "[%s] %v".data [.type t, .value v]) := by
      cases v <;> first
        | exact absurd rfl hne
        | simp only [describeRun, reflectType, ht]
    rw [hrun, sprintf_describe]
    simp [describe, ht]

/-- C15: `describe` returns for every value and never panics: the test
`v == nil` comes before the call of `value.Type()`, the only call that can
panic. It returns exactly `[nil] nil` for the absent value, and for every
other value what `fmt.Sprintf` makes of the format `[%s] %v`: a bracket, the
name of the runtime type of the value, a bracket and a blank, and the
rendering of the value by `%v`; so also for functions and typed nil
pointers. -/
theorem describeRun_never_panics (R : Runtime) (v : Value) :
    describeRun R .nil = .ok "[nil] nil" ∧
    (∃ s, describeRun R v = .ok s) ∧
    (v ≠ .nil → ∃ t, typeOf v = some t ∧
      describeRun R v = .ok ("[" ++ typeString t ++ "] " ++ R.fmtV v)) ∧
    (∀ sig numIn variadic numOut addr,
      describeRun R (.func sig numIn variadic numOut addr)
        = .ok ("[" ++ sig ++ "] " ++ R.fmtV (.func sig numIn variadic numOut addr))) ∧
    (∀ t, describeRun R (.typedNil (.ptr t))
        = .ok ("[" ++ typeString (.ptr t) ++ "] " ++ R.fmtV (.typedNil (.ptr t)))) ∧
    describeRun R v = .ok (describe R v) := by
  refine ⟨rfl, ⟨_, describeRun_ok R v⟩, fun hv => ?_, fun _ _ _ _ _ => ?_, fun _ => ?_,
    describeRun_ok R v⟩
  · cases ht : typeOf v with
    | none => exact absurd ((typeOf_none_iff v).1 ht) hv
    | some t => exact ⟨t, rfl, by rw [describeRun_ok]; simp [describe, ht]⟩
  · rw [describeRun_ok]; rfl
  · rw [describeRun_ok]; rfl

theorem describeRun_never_panics_witness :
    ∃ t, typeOf (.int 3) = some t ∧
      describeRun (sampleRuntime false) (.int 3)
        = .ok ("[" ++ typeString t ++ "] " ++ (sampleRuntime false).fmtV (.int 3)) :=
  (describeRun_never_panics (sampleRuntime false) (.int 3)).2.2.1 (by simp)

end Assert
